import Mathlib

/- Verification of the mytracks GPX track browser backend.
   Shallow embedding of the Go/TypeScript sources:
   - elevation segmenter (calculateElevationChanges, frontend comparison path)
   - geohash indexer and the spatial query engine (TrackService)
   - HTTP handlers for bounds / coordinate queries (TrackHandler)
   - ingestion coordinator (startSeedingProcess / loadTracksFromTar)
   - GPX parser (GPXService.processGPXData) and the GPX download generator.
   Machine floating point is modelled by exact rationals; wall-clock
   timestamps by integer seconds; the relational store by ordered lists. -/

set_option maxHeartbeats 1600000

namespace MyTracks

/-! ## Elevation segmenter

Embedding of `calculateElevationChanges` from the frontend comparison-upload
code. Elevation samples are rationals; points without elevation are dropped
by the `filterMap` exactly as the source filters `p.ele !== undefined`. -/

/-- A GPS point as consumed by the frontend segmenter:
latitude, longitude, optional elevation, optional timestamp. -/
structure TrackPt where
  lat : ℚ
  lon : ℚ
  ele : Option ℚ
  time : Option ℤ
deriving DecidableEq

/-- Segment classification used by the elevation segmenter. -/
inductive SegType where
  | up
  | down
  | flat
deriving DecidableEq

/-- Classification of one consecutive elevation delta:
`up` when the change exceeds +0.5 m, `down` below -0.5 m, `flat` otherwise
(source: the `Math.abs(elevationChange) > 0.5` test). -/
def classifySeg (d : ℚ) : SegType :=
  if |d| > 1/2 then (if d > 0 then .up else .down) else .flat

/-- Loop state of `calculateElevationChanges`: the current run's
classification (none before the first delta), the elevation at which the
current run started, and the two accumulators. -/
structure ElevState where
  cur : Option SegType
  segStart : ℚ
  gain : ℚ
  loss : ℚ
deriving DecidableEq

/-- Closing a run: add its net elevation change to the gain accumulator when
the run was `up` and the net change is positive, to the loss accumulator when
the run was `down` and the net change is negative (source: the two `if`
branches guarding `elevationGain +=` and `elevationLoss +=`). -/
def closeRun (c : SegType) (segStart endEle gain loss : ℚ) : ℚ × ℚ :=
  let d := endEle - segStart
  if c = .up ∧ d > 0 then (gain + d, loss)
  else if c = .down ∧ d < 0 then (gain, loss + |d|)
  else (gain, loss)

/-- One iteration of the segmenter loop body for the pair
(`prev`, `cur`) of consecutive elevations. -/
def elevStep (st : ElevState) (prev cur : ℚ) : ElevState :=
  let t := classifySeg (cur - prev)
  match st.cur with
  | none => { st with cur := some t }
  | some c =>
    if c = t then { st with cur := some t }
    else
      let gl := closeRun c st.segStart prev st.gain st.loss
      { cur := some t, segStart := prev, gain := gl.1, loss := gl.2 }

/-- The segmenter loop over the remaining elevations; `prev` is the
previously visited elevation. Returns the final state together with the last
elevation visited. -/
def elevLoop (st : ElevState) (prev : ℚ) : List ℚ → ElevState × ℚ
  | [] => (st, prev)
  | cur :: rest => elevLoop (elevStep st prev cur) cur rest

/-- Embedding of `calculateElevationChanges`: returns
(elevation gain, elevation loss). -/
def calculateElevationChanges (points : List TrackPt) : ℚ × ℚ :=
  let pe := points.filterMap (·.ele)
  match pe with
  | e0 :: e1 :: rest =>
    let r := elevLoop ⟨none, e0, 0, 0⟩ e0 (e1 :: rest)
    match r.1.cur with
    | none => (r.1.gain, r.1.loss)
    | some c => closeRun c r.1.segStart r.2 r.1.gain r.1.loss
  | _ => (0, 0)

/-! Specification-side segmenter, written from the spec's words (§4.3): walk
the consecutive deltas, maintain the net change of the open run, close a run
whenever the classification changes, flush the final run. It tracks the run's
net change directly where the source tracks the run's start elevation. -/

/-- Consecutive deltas of a list of elevations. -/
def deltasOf : List ℚ → List ℚ
  | a :: b :: r => (b - a) :: deltasOf (b :: r)
  | _ => []

/-- State of the spec-side segmenter: classification of the open run, its
accumulated net change, and the two accumulators. -/
structure SpecElevState where
  cur : Option SegType
  runNet : ℚ
  gain : ℚ
  loss : ℚ
deriving DecidableEq

/-- Spec-side run closing: identical accounting rule, phrased on the run's
net change. -/
def specClose (c : SegType) (net gain loss : ℚ) : ℚ × ℚ :=
  if c = .up ∧ net > 0 then (gain + net, loss)
  else if c = .down ∧ net < 0 then (gain, loss + |net|)
  else (gain, loss)

/-- Spec-side step on one delta. -/
def specStep (st : SpecElevState) (d : ℚ) : SpecElevState :=
  let t := classifySeg d
  match st.cur with
  | none => { cur := some t, runNet := d, gain := st.gain, loss := st.loss }
  | some c =>
    if c = t then { st with cur := some t, runNet := st.runNet + d }
    else
      let gl := specClose c st.runNet st.gain st.loss
      { cur := some t, runNet := d, gain := gl.1, loss := gl.2 }

/-- Spec-side segmenter over a point sequence. -/
def specElevationChanges (points : List TrackPt) : ℚ × ℚ :=
  let pe := points.filterMap (·.ele)
  if pe.length < 2 then (0, 0)
  else
    let st := (deltasOf pe).foldl specStep ⟨none, 0, 0, 0⟩
    match st.cur with
    | none => (st.gain, st.loss)
    | some c => specClose c st.runNet st.gain st.loss

/-- Relation between a source-side loop state (with the last visited
elevation) and a spec-side state: same run classification and accumulators,
the open run's net change equals last elevation minus run start, and before
the first delta the run start is the last visited elevation. -/
def ElevSim (st : ElevState) (prev : ℚ) (ss : SpecElevState) : Prop :=
  st.cur = ss.cur ∧ st.gain = ss.gain ∧ st.loss = ss.loss ∧
    prev - st.segStart = ss.runNet ∧ (st.cur = none → prev = st.segStart)

theorem closeRun_eq_specClose (c : SegType) (s e g l : ℚ) :
    closeRun c s e g l = specClose c (e - s) g l := rfl

theorem elevStep_sim {st : ElevState} {prev : ℚ} {ss : SpecElevState}
    (h : ElevSim st prev ss) (cur : ℚ) :
    ElevSim (elevStep st prev cur) cur (specStep ss (cur - prev)) := by
  obtain ⟨h1, h2, h3, h4, h5⟩ := h
  unfold elevStep specStep
  rw [← h1]
  cases hc : st.cur with
  | none =>
    refine ⟨rfl, h2, h3, ?_, by simp⟩
    have := h5 hc
    simp only
    rw [← this]
  | some c =>
    by_cases he : c = classifySeg (cur - prev)
    · simp only [if_pos he]
      refine ⟨rfl, h2, h3, ?_, by simp⟩
      simp only
      rw [← h4]
      ring
    · simp only [if_neg he]
      rw [closeRun_eq_specClose, h4, h2, h3]
      exact ⟨rfl, rfl, rfl, by ring, by simp⟩

theorem elevLoop_sim {st : ElevState} {prev : ℚ} {ss : SpecElevState}
    (h : ElevSim st prev ss) (es : List ℚ) :
    ElevSim (elevLoop st prev es).1 (elevLoop st prev es).2
      ((deltasOf (prev :: es)).foldl specStep ss) := by
  induction es generalizing st prev ss with
  | nil => exact h
  | cons cur rest ih =>
    have hstep := elevStep_sim h cur
    simpa [elevLoop, deltasOf] using ih hstep

theorem calculateElevationChanges_eq_spec (points : List TrackPt) :
    calculateElevationChanges points = specElevationChanges points := by
  unfold calculateElevationChanges specElevationChanges
  cases hpe : points.filterMap (·.ele) with
  | nil => simp
  | cons e0 tl =>
    cases tl with
    | nil => simp [deltasOf]
    | cons e1 rest =>
      have hsim : ElevSim (⟨none, e0, 0, 0⟩ : ElevState) e0
          (⟨none, 0, 0, 0⟩ : SpecElevState) := by
        refine ⟨rfl, rfl, rfl, by simp, fun _ => rfl⟩
      have h := elevLoop_sim hsim (e1 :: rest)
      obtain ⟨h1, h2, h3, h4, _⟩ := h
      simp only [List.length_cons]
      rw [if_neg (by omega : ¬ rest.length + 1 + 1 < 2)]
      rw [h1]
      cases hc : ((deltasOf (e0 :: e1 :: rest)).foldl specStep
          ⟨none, 0, 0, 0⟩).cur with
      | none =>
        dsimp only
        rw [h2, h3]
      | some c =>
        dsimp only
        rw [closeRun_eq_specClose, h4, h2, h3]

/-- The classification test written without the absolute value, for
evaluating the segmenter on concrete inputs. -/
theorem classifySeg_eq (d : ℚ) :
    classifySeg d =
      if 1/2 < d then .up else if d < -(1/2) then .down else .flat := by
  unfold classifySeg
  by_cases hc : (1:ℚ)/2 < d
  · rw [if_pos (show |d| > 1/2 from lt_of_lt_of_le hc (le_abs_self d)),
      if_pos (show d > 0 by linarith), if_pos hc]
  · by_cases hd : d < -(1/2)
    · rw [if_pos (show |d| > 1/2 by rw [gt_iff_lt, lt_abs]; right; linarith),
        if_neg (show ¬ d > 0 by simp; linarith), if_neg hc, if_pos hd]
    · rw [if_neg (show ¬ |d| > 1/2 by
          rw [gt_iff_lt, lt_abs]
          push_neg
          constructor <;> linarith),
        if_neg hc, if_neg hd]

/-- Helper: a concrete point carrying only an elevation. -/
def elePt (e : ℚ) : TrackPt := ⟨0, 0, some e, none⟩

/-- C5: the elevation segmenter classifies each consecutive delta as
up (> +0.5 m), down (< -0.5 m) or flat, closes a run whenever the
classification changes, adding its net change to gain (up run, positive net)
or loss (down run, negative net), flushes the final run the same way
(formalised as equality with the spec-side segmenter written from those
words), returns (0, 0) for fewer than 2 elevation samples, and on
[0,10,20,30] yields gain 30, loss 0, while [100, 100.2, 100.1, 100.3]
yields gain 0, loss 0. -/
theorem elevation_segmenter_spec :
    (∀ points : List TrackPt,
        calculateElevationChanges points = specElevationChanges points) ∧
    (∀ points : List TrackPt,
        (points.filterMap (·.ele)).length < 2 →
        calculateElevationChanges points = (0, 0)) ∧
    calculateElevationChanges
      [elePt 0, elePt 10, elePt 20, elePt 30] = (30, 0) ∧
    calculateElevationChanges
      [elePt 100, elePt (501/5), elePt (1001/10), elePt (1003/10)] = (0, 0) := by
  refine ⟨calculateElevationChanges_eq_spec, ?_,
    by norm_num [calculateElevationChanges, elevLoop, elevStep, classifySeg_eq,
      closeRun, elePt, List.filterMap_cons],
    by
      norm_num [calculateElevationChanges, elevLoop, elevStep, classifySeg_eq,
        closeRun, elePt, List.filterMap_cons]
      decide⟩
  intro points h
  unfold calculateElevationChanges
  cases hpe : points.filterMap (·.ele) with
  | nil => simp
  | cons e0 tl =>
    cases tl with
    | nil => simp
    | cons e1 rest =>
      rw [hpe] at h
      simp at h
      omega

/-- Witness for C5: the hypothesis of the short-input clause is discharged
on a concrete one-sample input. -/
theorem elevation_segmenter_spec_witness :
    calculateElevationChanges [elePt 7] = (0, 0) :=
  elevation_segmenter_spec.2.1 [elePt 7] (by decide)

/-! ## Ingestion coordinator

Embedding of `countGPXFilesInTar`, `loadTracksFromTar`,
`updateSeedingProgress` and `startSeedingProcess` from the API server, and
of `TrackService.refreshFromArchive`. The archive is modelled as its list of
tar entries plus two failure flags (zero-byte file, corrupt gzip/tar
structure); the database of persisted tracks as the list of stored filenames
in insertion order; reading and parsing one entry's bytes as that entry's
recorded outcome. Wall-clock `LastUpdated` timestamps are not modelled. -/

/-- The seeding progress snapshot (`SeedingProgress` without the
`LastUpdated` timestamp). -/
structure Progress where
  total : Nat
  loaded : Nat
  complete : Bool
  running : Bool
  errMsg : String
deriving DecidableEq

/-- Outcome of reading and parsing one tar entry's content. -/
inductive GpxOutcome where
  | ok
  | readFail
  | parseFail
deriving DecidableEq

/-- One tar entry: its name, whether it is a regular file, and the outcome
of reading and parsing its content. -/
structure TarEntry where
  name : String
  isReg : Bool
  outcome : GpxOutcome
deriving DecidableEq

/-- A gzip-compressed tar archive: entries plus the two failure modes the
source checks (`tar file is empty`, gzip/tar read error). -/
structure Archive where
  entries : List TarEntry
  empty : Bool
  corrupt : Bool
deriving DecidableEq

/-- Last path component of a name (`filepath.Base`), for names that do not
end in a slash. -/
def baseNameChars : List Char → List Char → List Char
  | cur, [] => cur.reverse
  | cur, c :: rest =>
    if c = '/' then baseNameChars [] rest else baseNameChars (c :: cur) rest

/-- `filepath.Base` on a string. -/
def baseName (s : String) : String := ⟨baseNameChars [] s.data⟩

/-- The entry test `header.Typeflag == tar.TypeReg &&
strings.HasSuffix(strings.ToLower(header.Name), ".gpx")`. -/
def isGpxEntry (e : TarEntry) : Bool :=
  e.isReg && (".gpx".data.isSuffixOf (e.name.data.map Char.toLower))

/-- Embedding of `updateSeedingProgress`: writes all snapshot fields,
with `IsRunning = !complete`. -/
def updateSeedingProgress (loaded total : Nat) (complete : Bool)
    (errMsg : String) : Progress :=
  { total := total, loaded := loaded, complete := complete,
    running := !complete, errMsg := errMsg }

/-- Embedding of `countGPXFilesInTar`. -/
def countGPXFilesInTar (ar : Archive) : Except String Nat :=
  if ar.empty then .error "tar file is empty"
  else if ar.corrupt then .error "error reading tar"
  else .ok (ar.entries.filter isGpxEntry).length

/-- Result of one `loadTracksFromTar` pass: the database contents, the
emitted progress snapshots, the final `loaded` counter, and the error,
if any. -/
structure LoadResult where
  db : List String
  trace : List Progress
  loaded : Nat
  err : Option String
deriving DecidableEq

/-- Body of the `loadTracksFromTar` entry loop, accumulating
(database, loaded counter, emitted snapshots). A duplicate filename is
skipped but still counted as loaded; a read or parse failure is skipped
without counting; `totalG` is the `seedingProgress.TotalTracks` value read
by `updateSeedingProgress` calls. -/
def loadStep (totalG : Nat) (acc : List String × Nat × List Progress)
    (e : TarEntry) : List String × Nat × List Progress :=
  if isGpxEntry e then
    match e.outcome with
    | .readFail => acc
    | .parseFail => acc
    | .ok =>
      let fname := baseName e.name
      let loaded := acc.2.1 + 1
      let db := if fname ∈ acc.1 then acc.1 else acc.1 ++ [fname]
      (db, loaded, acc.2.2 ++ [updateSeedingProgress loaded totalG false ""])
  else acc

/-- Embedding of `loadTracksFromTar`. -/
def loadTracksFromTar (ar : Archive) (db0 : List String) (totalG : Nat) :
    LoadResult :=
  if ar.empty then ⟨db0, [], 0, some "tar file is empty"⟩
  else if ar.corrupt then ⟨db0, [], 0, some "error reading tar"⟩
  else
    let r := ar.entries.foldl (loadStep totalG) (db0, 0, [])
    ⟨r.1, r.2.2, r.2.1, none⟩

/-- Embedding of `startSeedingProcess`: returns the database after the run
and the sequence of progress snapshots written during the run. -/
def startSeedingProcess (ar : Archive) (db0 : List String) :
    List String × List Progress :=
  match countGPXFilesInTar ar with
  | .error e =>
    (db0, [updateSeedingProgress 0 0 false ("Error counting tracks: " ++ e)])
  | .ok totalTracks =>
    if db0.length ≥ totalTracks then
      (db0, [updateSeedingProgress totalTracks totalTracks true ""])
    else
      let firstSnap := updateSeedingProgress db0.length totalTracks false ""
      let r := loadTracksFromTar ar db0 totalTracks
      match r.err with
      | some e =>
        (r.db, firstSnap :: r.trace ++
          [updateSeedingProgress 0 totalTracks false
            ("Error loading tracks: " ++ e)])
      | none =>
        (r.db, firstSnap :: r.trace ++
          [updateSeedingProgress totalTracks totalTracks true ""])

/-- Body of the `refreshFromArchive` entry loop (dedup check happens before
reading and parsing; returns database and processed count). -/
def refreshStep (acc : List String × Nat) (e : TarEntry) :
    List String × Nat :=
  if isGpxEntry e then
    let filename := baseName e.name
    if filename ∈ acc.1 then acc
    else
      match e.outcome with
      | .readFail => acc
      | .parseFail => acc
      | .ok => (acc.1 ++ [filename], acc.2 + 1)
  else acc

/-- Embedding of `TrackService.refreshFromArchive`: returns the database
after the pass and the number of newly persisted tracks. -/
def refreshFromArchive (ar : Archive) (db0 : List String) :
    Except String (List String × Nat) :=
  if ar.corrupt then .error "failed to create gzip reader"
  else .ok (ar.entries.foldl refreshStep (db0, 0))

/-! Lemmas about one `loadTracksFromTar` loop iteration and the fold. -/

/-- An entry counted by the loader: a regular `.gpx` entry whose content
reads and parses successfully or is a duplicate (i.e. outcome `ok`). -/
def isOkGpx (e : TarEntry) : Bool := isGpxEntry e && decide (e.outcome = .ok)

theorem loadStep_cases (t : Nat) (acc : List String × Nat × List Progress)
    (e : TarEntry) :
    (isOkGpx e = false ∧ loadStep t acc e = acc) ∨
      (isOkGpx e = true ∧
        (loadStep t acc e).2.1 = acc.2.1 + 1 ∧
        (loadStep t acc e).2.2 =
          acc.2.2 ++ [updateSeedingProgress (acc.2.1 + 1) t false ""] ∧
        ((loadStep t acc e).1 = acc.1 ∨
          (loadStep t acc e).1 = acc.1 ++ [baseName e.name]) ∧
        baseName e.name ∈ (loadStep t acc e).1) := by
  unfold loadStep isOkGpx
  by_cases hg : isGpxEntry e
  · cases ho : e.outcome
    · right
      by_cases hm : baseName e.name ∈ acc.1 <;> simp [hg, hm]
    · left
      simp [hg]
    · left
      simp [hg]
  · left
    simp [hg]

theorem loadFold_trace_shape (t : Nat) (es : List TarEntry) :
    ∀ acc : List String × Nat × List Progress,
      ∀ p ∈ (es.foldl (loadStep t) acc).2.2,
        p ∈ acc.2.2 ∨ ∃ i, p = updateSeedingProgress i t false "" := by
  induction es with
  | nil => intro acc p hp; exact Or.inl hp
  | cons e rest ih =>
    intro acc p hp
    rw [List.foldl_cons] at hp
    rcases ih (loadStep t acc e) p hp with h | h
    · rcases loadStep_cases t acc e with ⟨_, heq⟩ | ⟨_, _, htr, _, _⟩
      · rw [heq] at h
        exact Or.inl h
      · rw [htr] at h
        rcases List.mem_append.1 h with h | h
        · exact Or.inl h
        · exact Or.inr ⟨acc.2.1 + 1, List.mem_singleton.1 h⟩
    · exact Or.inr h

theorem loadFold_chain (t : Nat) (es : List TarEntry) :
    ∀ acc : List String × Nat × List Progress,
      List.Chain' (fun p q => p.loaded ≤ q.loaded) acc.2.2 →
      (∀ p ∈ acc.2.2, p.loaded ≤ acc.2.1) →
      List.Chain' (fun p q => p.loaded ≤ q.loaded)
          (es.foldl (loadStep t) acc).2.2 ∧
        (∀ p ∈ (es.foldl (loadStep t) acc).2.2,
          p.loaded ≤ (es.foldl (loadStep t) acc).2.1) ∧
        acc.2.1 ≤ (es.foldl (loadStep t) acc).2.1 := by
  induction es with
  | nil => intro acc h1 h2; exact ⟨h1, h2, le_refl _⟩
  | cons e rest ih =>
    intro acc h1 h2
    rw [List.foldl_cons]
    rcases loadStep_cases t acc e with ⟨_, heq⟩ | ⟨_, hl, htr, _, _⟩
    · rw [heq]
      exact ih acc h1 h2
    · have h1' : List.Chain' (fun p q => p.loaded ≤ q.loaded)
          (loadStep t acc e).2.2 := by
        rw [htr]
        refine List.Chain'.append h1 (List.chain'_singleton _) ?_
        intro x hx y hy
        rcases List.mem_getLast?_eq_getLast hx with ⟨hne, hxe⟩
        have hxm : x ∈ acc.2.2 := hxe ▸ List.getLast_mem hne
        have hy' : updateSeedingProgress (acc.2.1 + 1) t false "" = y := by
          simpa using hy
        rw [← hy']
        exact (h2 x hxm).trans (Nat.le_succ _)
      have h2' : ∀ p ∈ (loadStep t acc e).2.2,
          p.loaded ≤ (loadStep t acc e).2.1 := by
        rw [htr, hl]
        intro p hp
        rcases List.mem_append.1 hp with h | h
        · exact (h2 p h).trans (Nat.le_succ _)
        · have hpe : updateSeedingProgress (acc.2.1 + 1) t false "" = p := by
            have := List.mem_singleton.1 h
            exact this.symm
          rw [← hpe]
          exact le_refl _
      have hr := ih (loadStep t acc e) h1' h2'
      exact ⟨hr.1, hr.2.1, le_trans (hl ▸ Nat.le_succ acc.2.1) hr.2.2⟩

theorem loadFold_loaded (t : Nat) (es : List TarEntry) :
    ∀ acc : List String × Nat × List Progress,
      (es.foldl (loadStep t) acc).2.1 = acc.2.1 + (es.filter isOkGpx).length := by
  induction es with
  | nil => intro acc; simp
  | cons e rest ih =>
    intro acc
    rw [List.foldl_cons, List.filter_cons]
    rcases loadStep_cases t acc e with ⟨hok, heq⟩ | ⟨hok, hl, _, _, _⟩
    · rw [heq, ih acc, hok]
      simp
    · rw [ih (loadStep t acc e), hl, hok]
      simp
      omega

theorem length_filter_mono {α : Type} (p q : α → Bool)
    (h : ∀ a, p a = true → q a = true) (l : List α) :
    (l.filter p).length ≤ (l.filter q).length := by
  induction l with
  | nil => simp
  | cons a l ih =>
    rw [List.filter_cons, List.filter_cons]
    by_cases hp : p a = true
    · rw [if_pos hp, if_pos (h a hp)]
      simpa using ih
    · rw [if_neg hp]
      by_cases hq : q a = true
      · rw [if_pos hq]
        simp
        omega
      · rw [if_neg hq]
        exact ih

/-! Database lemmas for idempotence of the two ingestion passes. -/

theorem loadStep_db_mem (t : Nat) (acc : List String × Nat × List Progress)
    (e : TarEntry) {x : String} (hx : x ∈ acc.1) :
    x ∈ (loadStep t acc e).1 := by
  rcases loadStep_cases t acc e with ⟨_, heq⟩ | ⟨_, _, _, hdb, _⟩
  · rw [heq]; exact hx
  · rcases hdb with h | h
    · rw [h]; exact hx
    · rw [h]; exact List.mem_append_left _ hx

theorem loadFold_db_mem (t : Nat) (es : List TarEntry) :
    ∀ acc : List String × Nat × List Progress, ∀ x ∈ acc.1,
      x ∈ (es.foldl (loadStep t) acc).1 := by
  induction es with
  | nil => intro acc x hx; exact hx
  | cons e rest ih =>
    intro acc x hx
    rw [List.foldl_cons]
    exact ih (loadStep t acc e) x (loadStep_db_mem t acc e hx)

theorem loadFold_covers (t : Nat) (es : List TarEntry) :
    ∀ acc : List String × Nat × List Progress, ∀ e ∈ es,
      isOkGpx e = true →
      baseName e.name ∈ (es.foldl (loadStep t) acc).1 := by
  induction es with
  | nil => intro _ e he; cases he
  | cons e0 rest ih =>
    intro acc e he hok
    rw [List.foldl_cons]
    rcases List.mem_cons.1 he with h | h
    · subst h
      rcases loadStep_cases t acc e with ⟨hbad, _⟩ | ⟨_, _, _, _, hmem⟩
      · rw [hok] at hbad; cases hbad
      · exact loadFold_db_mem t rest _ _ hmem
    · exact ih (loadStep t acc e0) e h hok

theorem loadStep_db_noop (t : Nat) (acc : List String × Nat × List Progress)
    (e : TarEntry) (h : isOkGpx e = true → baseName e.name ∈ acc.1) :
    (loadStep t acc e).1 = acc.1 := by
  rcases loadStep_cases t acc e with ⟨_, heq⟩ | ⟨hok, _, _, _, _⟩
  · rw [heq]
  · have hmem := h hok
    unfold loadStep at *
    by_cases hg : isGpxEntry e
    · cases ho : e.outcome <;> simp [hg, ho] at *
      · simp [hmem]
    · simp [hg]

theorem loadFold_db_noop (t : Nat) (es : List TarEntry) :
    ∀ acc : List String × Nat × List Progress,
      (∀ e ∈ es, isOkGpx e = true → baseName e.name ∈ acc.1) →
      (es.foldl (loadStep t) acc).1 = acc.1 := by
  induction es with
  | nil => intro acc _; rfl
  | cons e rest ih =>
    intro acc h
    rw [List.foldl_cons]
    have hstep : (loadStep t acc e).1 = acc.1 :=
      loadStep_db_noop t acc e (h e (List.mem_cons_self e rest))
    have := ih (loadStep t acc e) (by
      intro e2 he2 hok
      rw [hstep]
      exact h e2 (List.mem_cons_of_mem e he2) hok)
    rw [this, hstep]

theorem refreshStep_noop (acc : List String × Nat) (e : TarEntry)
    (h : isOkGpx e = true → baseName e.name ∈ acc.1) :
    refreshStep acc e = acc := by
  unfold refreshStep
  by_cases hg : isGpxEntry e
  · by_cases hm : baseName e.name ∈ acc.1
    · simp [hg, hm]
    · cases ho : e.outcome
      · exact absurd (h (by simp [isOkGpx, hg, ho])) hm
      · simp [hg, hm]
      · simp [hg, hm]
  · simp [hg]

theorem refreshFold_noop (es : List TarEntry) :
    ∀ acc : List String × Nat,
      (∀ e ∈ es, isOkGpx e = true → baseName e.name ∈ acc.1) →
      es.foldl refreshStep acc = acc := by
  induction es with
  | nil => intro acc _; rfl
  | cons e rest ih =>
    intro acc h
    rw [List.foldl_cons, refreshStep_noop acc e (h e (List.mem_cons_self e rest))]
    exact ih acc (fun e2 he2 => h e2 (List.mem_cons_of_mem e he2))

theorem refreshStep_db_mem (acc : List String × Nat) (e : TarEntry)
    {x : String} (hx : x ∈ acc.1) : x ∈ (refreshStep acc e).1 := by
  unfold refreshStep
  by_cases hg : isGpxEntry e
  · by_cases hm : baseName e.name ∈ acc.1
    · simp [hg, hm, hx]
    · cases ho : e.outcome <;> simp [hg, hm, hx]
  · simp [hg, hx]

theorem refreshFold_db_mem (es : List TarEntry) :
    ∀ acc : List String × Nat, ∀ x ∈ acc.1,
      x ∈ (es.foldl refreshStep acc).1 := by
  induction es with
  | nil => intro acc x hx; exact hx
  | cons e rest ih =>
    intro acc x hx
    rw [List.foldl_cons]
    exact ih (refreshStep acc e) x (refreshStep_db_mem acc e hx)

theorem refreshFold_covers (es : List TarEntry) :
    ∀ acc : List String × Nat, ∀ e ∈ es,
      isOkGpx e = true →
      baseName e.name ∈ (es.foldl refreshStep acc).1 := by
  induction es with
  | nil => intro _ e he; cases he
  | cons e0 rest ih =>
    intro acc e he hok
    rw [List.foldl_cons]
    rcases List.mem_cons.1 he with h | h
    · subst h
      have hmem : baseName e.name ∈ (refreshStep acc e).1 := by
        unfold refreshStep
        have hg : isGpxEntry e = true := by
          have := hok
          unfold isOkGpx at this
          exact (Bool.and_eq_true_iff.1 this).1
        have ho : e.outcome = .ok := by
          have := hok
          unfold isOkGpx at this
          exact of_decide_eq_true (Bool.and_eq_true_iff.1 this).2
        by_cases hm : baseName e.name ∈ acc.1
        · simp [hg, hm]
        · simp [hg, hm, ho]
      exact refreshFold_db_mem rest _ _ hmem
    · exact ih (refreshStep acc e0) e h hok

/-! Progress-trace helpers for the seeding run. -/

theorem loadTracksFromTar_trace_shape (ar : Archive) (db0 : List String)
    (t : Nat) :
    ∀ p ∈ (loadTracksFromTar ar db0 t).trace,
      ∃ i, p = updateSeedingProgress i t false "" := by
  intro p hp
  unfold loadTracksFromTar at hp
  by_cases he : ar.empty
  · simp [he] at hp
  by_cases hco : ar.corrupt
  · simp [he, hco] at hp
  simp only [he, hco, Bool.false_eq_true, if_false] at hp
  rcases loadFold_trace_shape t ar.entries (db0, 0, []) p hp with h | h
  · cases h
  · exact h

theorem loadTracksFromTar_trace_chain (ar : Archive) (db0 : List String)
    (t : Nat) :
    List.Chain' (fun p q => p.loaded ≤ q.loaded)
        (loadTracksFromTar ar db0 t).trace ∧
      ∀ p ∈ (loadTracksFromTar ar db0 t).trace,
        p.loaded ≤ (ar.entries.filter isGpxEntry).length := by
  unfold loadTracksFromTar
  by_cases he : ar.empty
  · simp [he]
  by_cases hco : ar.corrupt
  · simp [he, hco]
  simp only [he, hco, Bool.false_eq_true, if_false]
  have hch := loadFold_chain t ar.entries (db0, 0, [])
    (List.chain'_nil) (by intro p hp; cases hp)
  refine ⟨hch.1, ?_⟩
  intro p hp
  have h1 := hch.2.1 p hp
  have h2 : (ar.entries.foldl (loadStep t) (db0, 0, [])).2.1 =
      (ar.entries.filter isOkGpx).length := by
    simpa using loadFold_loaded t ar.entries (db0, 0, [])
  have h3 : (ar.entries.filter isOkGpx).length ≤
      (ar.entries.filter isGpxEntry).length := by
    apply length_filter_mono
    intro e hok
    unfold isOkGpx at hok
    exact (Bool.and_eq_true_iff.1 hok).1
  omega

/-- Concrete archive for the C2 counterexample: three parse-clean `.gpx`
entries, two of whose filenames are already persisted. -/
def c2Archive : Archive :=
  ⟨[⟨"a.gpx", true, .ok⟩, ⟨"b.gpx", true, .ok⟩, ⟨"c.gpx", true, .ok⟩],
    false, false⟩

/-- C2 counterexample: with two of three entries already persisted, the run
initialises the snapshot to loaded = 2 and the first streaming update then
reports loaded = 1, a decrease; moreover the last in-loop snapshot has
loaded = total and no error but is_complete = false, refuting the stated
iff. -/
theorem progress_monotonicity_counterexample :
    ¬ (List.Chain' (fun p q => p.loaded ≤ q.loaded)
        (startSeedingProcess c2Archive ["a.gpx", "b.gpx"]).2) ∧
    ¬ (∀ p ∈ (startSeedingProcess c2Archive ["a.gpx", "b.gpx"]).2,
        (p.complete = true ↔ p.loaded = p.total ∧ p.errMsg = "")) := by
  have htr : (startSeedingProcess c2Archive ["a.gpx", "b.gpx"]).2 =
      [⟨3, 2, false, true, ""⟩, ⟨3, 1, false, true, ""⟩,
       ⟨3, 2, false, true, ""⟩, ⟨3, 3, false, true, ""⟩,
       ⟨3, 3, true, false, ""⟩] := by decide
  constructor
  · rw [htr]
    intro h
    rcases List.chain'_cons.1 h with ⟨hle, _⟩
    exact absurd hle (by decide)
  · intro h
    have h4 := h ⟨3, 3, false, true, ""⟩ (by rw [htr]; decide)
    have hfalse := h4.2 ⟨rfl, rfl⟩
    cases hfalse

/-- C2 (amended): every snapshot written by a seeding run that claims
completion does have loaded_tracks = total_tracks and an empty error message
(the converse of the stated iff fails at the last in-loop update); the
sub-trace written by the streaming loop itself is non-decreasing in
loaded_tracks; and the full trace is non-decreasing whenever the store is
empty when the run starts (with a readable archive) — the initialization
snapshot seeds loaded with the pre-existing persisted count, so a
pre-populated store makes the first streaming update a decrease. -/
theorem progress_monotonicity_amended :
    (∀ (ar : Archive) (db0 : List String),
      ∀ p ∈ (startSeedingProcess ar db0).2,
        p.complete = true → p.loaded = p.total ∧ p.errMsg = "") ∧
    (∀ (ar : Archive) (db0 : List String) (t : Nat),
      List.Chain' (fun p q => p.loaded ≤ q.loaded)
        (loadTracksFromTar ar db0 t).trace) ∧
    (∀ ar : Archive, ar.empty = false → ar.corrupt = false →
      List.Chain' (fun p q => p.loaded ≤ q.loaded)
        (startSeedingProcess ar []).2) := by
  refine ⟨?_, ?_, ?_⟩
  · intro ar db0 p hp hc
    unfold startSeedingProcess at hp
    cases hcount : countGPXFilesInTar ar with
    | error e =>
      rw [hcount] at hp
      dsimp only at hp
      have hpe : p = updateSeedingProgress 0 0 false
          ("Error counting tracks: " ++ e) := by simpa using hp
      rw [hpe] at hc
      cases hc
    | ok total =>
      rw [hcount] at hp
      dsimp only at hp
      by_cases hge : db0.length ≥ total
      · rw [if_pos hge] at hp
        have hpe : p = updateSeedingProgress total total true "" := by
          simpa using hp
        rw [hpe]
        exact ⟨rfl, rfl⟩
      · rw [if_neg hge] at hp
        cases herr : (loadTracksFromTar ar db0 total).err with
        | some e =>
          rw [herr] at hp
          dsimp only at hp
          rcases List.mem_cons.1 hp with h | h
          · rw [h] at hc; cases hc
          · rcases List.mem_append.1 h with h | h
            · rcases loadTracksFromTar_trace_shape ar db0 total p h with ⟨i, hpe⟩
              rw [hpe] at hc
              cases hc
            · have hpe : p = updateSeedingProgress 0 total false
                  ("Error loading tracks: " ++ e) := by simpa using h
              rw [hpe] at hc
              cases hc
        | none =>
          rw [herr] at hp
          dsimp only at hp
          rcases List.mem_cons.1 hp with h | h
          · rw [h] at hc; cases hc
          · rcases List.mem_append.1 h with h | h
            · rcases loadTracksFromTar_trace_shape ar db0 total p h with ⟨i, hpe⟩
              rw [hpe] at hc
              cases hc
            · have hpe : p = updateSeedingProgress total total true "" := by
                simpa using h
              rw [hpe]
              exact ⟨rfl, rfl⟩
  · intro ar db0 t
    exact (loadTracksFromTar_trace_chain ar db0 t).1
  · intro ar he hco
    unfold startSeedingProcess
    have hcount : countGPXFilesInTar ar =
        .ok (ar.entries.filter isGpxEntry).length := by
      unfold countGPXFilesInTar
      simp [he, hco]
    rw [hcount]
    dsimp only
    by_cases hz : ([] : List String).length ≥
        (ar.entries.filter isGpxEntry).length
    · rw [if_pos hz]
      exact List.chain'_singleton _
    · rw [if_neg hz]
      have herr : (loadTracksFromTar ar []
          (ar.entries.filter isGpxEntry).length).err = none := by
        unfold loadTracksFromTar
        simp [he, hco]
      rw [herr]
      dsimp only
      rw [List.cons_append, List.chain'_cons']
      constructor
      · intro q hq
        exact Nat.zero_le _
      · apply List.Chain'.append
        · exact (loadTracksFromTar_trace_chain ar [] _).1
        · exact List.chain'_singleton _
        · intro x hx y hy
          rcases List.mem_getLast?_eq_getLast hx with ⟨hne, hxe⟩
          have hxm := hxe ▸ List.getLast_mem hne
          have hb := (loadTracksFromTar_trace_chain ar [] _).2 x hxm
          have hye : updateSeedingProgress
              (ar.entries.filter isGpxEntry).length
              (ar.entries.filter isGpxEntry).length true "" = y := by
            simpa using hy
          rw [← hye]
          exact hb

/-- Witness for C2 (amended): the completeness direction and the chain
hypotheses are discharged on a concrete one-entry archive and empty store. -/
theorem progress_monotonicity_amended_witness :
    List.Chain' (fun p q => p.loaded ≤ q.loaded)
      (startSeedingProcess ⟨[⟨"t1.gpx", true, .ok⟩], false, false⟩ []).2 :=
  progress_monotonicity_amended.2.2
    ⟨[⟨"t1.gpx", true, .ok⟩], false, false⟩ rfl rfl

/-- Concrete archive for the C3 scenario: three `.gpx` entries, one of which
is malformed XML. -/
def c3Archive : Archive :=
  ⟨[⟨"t1.gpx", true, .ok⟩, ⟨"bad.gpx", true, .parseFail⟩,
    ⟨"t2.gpx", true, .ok⟩], false, false⟩

/-- C3 counterexample: on the 3-entry archive with one malformed entry, the
final progress snapshot reports loaded_tracks = 3, not 2 — the completion
update sets loaded_tracks to total_tracks. -/
theorem end_to_end_scenario_counterexample :
    (startSeedingProcess c3Archive []).2.getLast?.map Progress.loaded ≠
        some 2 ∧
      (startSeedingProcess c3Archive []).2.getLast? =
        some ⟨3, 3, true, false, ""⟩ := by
  constructor
  · decide
  · decide

/-- C3 (amended): a full run over the 3-entry archive (2 valid, 1 malformed)
skips the malformed entry without aborting, persists exactly the 2 valid
tracks, and terminates with total_tracks = 3, is_complete = true and an
empty error message — but with loaded_tracks = 3, because the completion
update sets loaded to total; the mid-run snapshot after streaming shows
loaded_tracks = 2. -/
theorem end_to_end_scenario_amended :
    (startSeedingProcess c3Archive []).1 = ["t1.gpx", "t2.gpx"] ∧
    (startSeedingProcess c3Archive []).2 =
      [⟨3, 0, false, true, ""⟩, ⟨3, 1, false, true, ""⟩,
       ⟨3, 2, false, true, ""⟩, ⟨3, 3, true, false, ""⟩] := by
  constructor
  · decide
  · decide

/-- C6: ingestion is idempotent on the filename key. Running
`loadTracksFromTar` a second time over the same archive leaves the set of
persisted filenames — in particular their count — unchanged, and a second
`refreshFromArchive` pass persists 0 new tracks and leaves the store
unchanged: an entry whose filename is already stored is skipped. -/
theorem ingestion_idempotent :
    (∀ (ar : Archive) (db0 : List String) (t1 t2 : Nat),
      (loadTracksFromTar ar (loadTracksFromTar ar db0 t1).db t2).db =
        (loadTracksFromTar ar db0 t1).db) ∧
    (∀ (ar : Archive) (db0 db1 : List String) (n : Nat),
      refreshFromArchive ar db0 = .ok (db1, n) →
      refreshFromArchive ar db1 = .ok (db1, 0)) := by
  constructor
  · intro ar db0 t1 t2
    unfold loadTracksFromTar
    by_cases he : ar.empty
    · simp [he]
    by_cases hco : ar.corrupt
    · simp [he, hco]
    simp only [he, hco, Bool.false_eq_true, if_false]
    apply loadFold_db_noop
    intro e he2 hok
    exact loadFold_covers t1 ar.entries (db0, 0, []) e he2 hok
  · intro ar db0 db1 n h
    unfold refreshFromArchive at h ⊢
    by_cases hco : ar.corrupt
    · simp [hco] at h
    · simp only [hco, Bool.false_eq_true, if_false] at h ⊢
      have hfold : ar.entries.foldl refreshStep (db0, 0) = (db1, n) := by
        simpa using h
      have hnoop : ar.entries.foldl refreshStep (db1, 0) = (db1, 0) := by
        apply refreshFold_noop
        intro e he hok
        have hcov := refreshFold_covers ar.entries (db0, 0) e he hok
        rw [hfold] at hcov
        exact hcov
      simp [hnoop]

/-- Witness for C6: the refresh-idempotence hypothesis discharged on a
concrete one-entry archive. -/
theorem ingestion_idempotent_witness :
    refreshFromArchive ⟨[⟨"a.gpx", true, .ok⟩], false, false⟩ ["a.gpx"] =
      .ok (["a.gpx"], 0) :=
  ingestion_idempotent.2 ⟨[⟨"a.gpx", true, .ok⟩], false, false⟩ [] ["a.gpx"] 1
    (by rfl)

/-! ## Geohash indexer and spatial query engine

Embedding of the geohash library used by the source
(github.com/mmcloughlin/geohash: 32-bit quantization of each coordinate,
bit interleaving with the longitude bit first, base-32 digits) and of
`TrackService.GetTracksByBounds` / `GetTracksWithLocation` /
`findCommonPrefix` / `PopulateMissingGeohashes`. The store is the list of
persisted tracks ordered newest-first (`ORDER BY created_at DESC`); a
query's result is a filter over it truncated to the limit. Track point
sequences are not part of the record because `Preload` only controls how
much of a matching row is loaded, never which rows match. -/

/-- The geohash base-32 alphabet. -/
def geohashAlphabet : List Char := "0123456789bcdefghjkmnpqrstuvwxyz".data

/-- Quantization of one coordinate with range `±r` to 32 bits
(`encodeRange` in the geohash library), on exact rationals; the final
`% 2^32` is the conversion to `uint32`. -/
def encodeRange (x r : ℚ) : ℕ :=
  Int.toNat ⌊(x + r) / (2 * r) * 4294967296⌋ % 4294967296

/-- Spread the low `n` bits of `x` to the even bit positions. -/
def spreadBits : ℕ → ℕ → ℕ
  | 0, _ => 0
  | n + 1, x => (x % 2) + 4 * spreadBits n (x / 2)

/-- `geohash.Encode`: the 12-character geohash of a point — interleave the
two 32-bit quantized coordinates (longitude in the more significant
position), keep the top 60 bits, write them as 12 base-32 digits. -/
def geohashEncode (lat lon : ℚ) : List Char :=
  let latInt := encodeRange lat 90
  let lngInt := encodeRange lon 180
  let hash := (spreadBits 32 latInt + 2 * spreadBits 32 lngInt) / 16
  (List.range 12).map (fun i => geohashAlphabet.getD ((hash / 32 ^ (11 - i)) % 32) ' ')

/-- Longest common prefix of two character lists. -/
def commonPfxAux : List Char → List Char → List Char
  | a :: as, b :: bs => if a = b then a :: commonPfxAux as bs else []
  | _, _ => []

/-- `findCommonPrefix` from the source: longest common prefix of the two
corner geohashes, returned only when at least 2 characters long. -/
def findCommonPfx (h1 h2 : List Char) : List Char :=
  let result := commonPfxAux h1 h2
  if result.length < 2 then [] else result

/-- A persisted track row, with the fields the query engine filters on. -/
structure TrackRec where
  filename : String
  name : String
  description : Option String
  distance : ℚ
  duration : ℤ
  north : ℚ
  south : ℚ
  east : ℚ
  west : ℚ
  geohash : List Char
deriving DecidableEq

/-- The exact bounds condition of the source query:
`north >= ? AND south <= ? AND east >= ? AND west <= ?` bound to
(query south, query north, query west, query east). -/
def boundsOverlap (t : TrackRec) (north south east west : ℚ) : Bool :=
  decide (t.north ≥ south) && decide (t.south ≤ north) &&
    decide (t.east ≥ west) && decide (t.west ≤ east)

/-- The geohash coarse filter: `geohash LIKE prefix+"%"`, added only when
the common prefix is nonempty. -/
def geohashPfxFilter (pfx : List Char) (t : TrackRec) : Bool :=
  if pfx.length > 0 then pfx.isPrefixOf t.geohash else true

/-- Rows matched by `GetTracksByBounds` before the `LIMIT` truncation. -/
def getTracksByBoundsCandidates (store : List TrackRec)
    (north south east west : ℚ) : List TrackRec :=
  let topLeftHash := geohashEncode north west
  let bottomRightHash := geohashEncode south east
  let pfx := findCommonPfx topLeftHash bottomRightHash
  store.filter (fun t => geohashPfxFilter pfx t && boundsOverlap t north south east west)

/-- Embedding of `GetTracksByBounds`. -/
def getTracksByBounds (store : List TrackRec) (north south east west : ℚ)
    (limit : Nat) : List TrackRec :=
  (getTracksByBoundsCandidates store north south east west).take limit

/-- Substring occurrence test on character lists. -/
def subOccurs (needle : List Char) : List Char → Bool
  | [] => needle.isEmpty
  | c :: rest => needle.isPrefixOf (c :: rest) || subOccurs needle rest

/-- Case-insensitive substring test (`LOWER(col) LIKE '%'+lower(q)+'%'`). -/
def lowerContains (haystack needle : String) : Bool :=
  subOccurs (needle.data.map Char.toLower) (haystack.data.map Char.toLower)

/-- The text filter of `GetTracks`/`GetTracksWithLocation`: OR over name,
filename and description; a row with NULL description fails the
description disjunct. -/
def matchesText (q : String) (t : TrackRec) : Bool :=
  if q = "" then true
  else
    lowerContains t.name q || lowerContains t.filename q ||
      (match t.description with
       | some d => lowerContains d q
       | none => false)

/-- The distance and duration range filters (each applied only when its
parameter is present). -/
def matchesRanges (minDistance maxDistance : Option ℚ)
    (minDuration maxDuration : Option ℤ) (t : TrackRec) : Bool :=
  minDistance.all (fun v => decide (t.distance ≥ v)) &&
    maxDistance.all (fun v => decide (t.distance ≤ v)) &&
    minDuration.all (fun v => decide (t.duration ≥ v)) &&
    maxDuration.all (fun v => decide (t.duration ≤ v))

/-- Rows matched by `GetTracksWithLocation` before the `LIMIT` truncation:
the geographic filter is applied only when all four bounds are present. -/
def getTracksWithLocationCandidates (store : List TrackRec) (q : String)
    (north south east west : Option ℚ) (minDistance maxDistance : Option ℚ)
    (minDuration maxDuration : Option ℤ) : List TrackRec :=
  let geoFilter : TrackRec → Bool :=
    match north, south, east, west with
    | some n, some s, some e, some w =>
      let pfx := findCommonPfx (geohashEncode n w) (geohashEncode s e)
      fun t => geohashPfxFilter pfx t && boundsOverlap t n s e w
    | _, _, _, _ => fun _ => true
  store.filter (fun t =>
    geoFilter t && matchesText q t &&
      matchesRanges minDistance maxDistance minDuration maxDuration t)

/-- Embedding of `GetTracksWithLocation` (the `includeRoutes` flag only
controls point preloading of matching rows and is not modelled). -/
def getTracksWithLocation (store : List TrackRec) (q : String)
    (north south east west : Option ℚ) (minDistance maxDistance : Option ℚ)
    (minDuration maxDuration : Option ℤ) (limit : Nat) : List TrackRec :=
  (getTracksWithLocationCandidates store q north south east west
    minDistance maxDistance minDuration maxDuration).take limit

/-- Per-track body of `PopulateMissingGeohashes`: geohash of the
bounding-box centroid. -/
def populateMissingGeohash (t : TrackRec) : TrackRec :=
  { t with geohash :=
      geohashEncode ((t.north + t.south) / 2) ((t.east + t.west) / 2) }

/-- Evaluation helper for `encodeRange` at concrete inputs. -/
theorem encodeRange_eq (x r : ℚ) (k : ℕ)
    (h1 : (k : ℚ) ≤ (x + r) / (2 * r) * 4294967296)
    (h2 : (x + r) / (2 * r) * 4294967296 < k + 1)
    (h3 : k < 4294967296) : encodeRange x r = k := by
  unfold encodeRange
  rw [show ⌊(x + r) / (2 * r) * 4294967296⌋ = (k : ℤ) from by
    rw [Int.floor_eq_iff]
    refine ⟨by exact_mod_cast h1, by push_cast; exact_mod_cast h2⟩]
  rw [Int.toNat_natCast]
  exact Nat.mod_eq_of_lt h3

/-! Concrete geohash evaluations for the viewport query counterexample.
Query box: south 45, north 181/4 (= 45.25), west 7, east 29/4 (= 7.25).
Stored track: bounds north 46, south 44, east 8, west -80 — it overlaps the
query box, but its centroid (45, -36) geohashes far away. -/

theorem geohashEncode_nw :
    geohashEncode (181/4) 7 = "u0hcrm90rg6k".data := by
  unfold geohashEncode
  rw [encodeRange_eq (181/4) 90 3227190704 (by norm_num) (by norm_num)
      (by norm_num),
    encodeRange_eq 7 180 2230996900 (by norm_num) (by norm_num) (by norm_num)]
  decide

theorem geohashEncode_se :
    geohashEncode 45 (29/4) = "u0j0hbp210pb".data := by
  unfold geohashEncode
  rw [encodeRange_eq 45 90 3221225472 (by norm_num) (by norm_num)
      (by norm_num),
    encodeRange_eq (29/4) 180 2233979517 (by norm_num) (by norm_num)
      (by norm_num)]
  decide

theorem geohashEncode_centroid :
    geohashEncode ((46 + 44) / 2) ((8 + -80) / 2) = "g0n2hb1850n2".data := by
  unfold geohashEncode
  rw [encodeRange_eq ((46 + 44) / 2) 90 3221225472 (by norm_num) (by norm_num)
      (by norm_num),
    encodeRange_eq ((8 + -80) / 2) 180 1717986918 (by norm_num) (by norm_num)
      (by norm_num)]
  decide

/-- The stored track of the C1 counterexample, its geohash computed from its
bounding-box centroid exactly as the backfill pass computes it. -/
def c1Track : TrackRec :=
  populateMissingGeohash
    ⟨"big.gpx", "big", none, 0, 0, 46, 44, 8, -80, []⟩

/-- C1 counterexample: `c1Track` passes the exact bounds-overlap test for
the query box (north 45.25, south 45, east 7.25, west 7), yet the
`GetTracksByBounds` candidate set over a store holding exactly this track is
empty: the corner geohashes share the 2-character prefix "u0" and the
track's centroid geohash "g0n2hb1850n2" does not extend it, so the ANDed
`geohash LIKE` pre-filter excludes the track before the bounds test. -/
theorem geohash_prefix_counterexample :
    boundsOverlap c1Track (181/4) 45 (29/4) 7 = true ∧
    getTracksByBoundsCandidates [c1Track] (181/4) 45 (29/4) 7 = [] := by
  have hgh : c1Track.geohash = "g0n2hb1850n2".data := geohashEncode_centroid
  constructor
  · unfold boundsOverlap c1Track populateMissingGeohash
    simp only [Bool.and_eq_true, decide_eq_true_eq]
    norm_num
  · unfold getTracksByBoundsCandidates
    rw [geohashEncode_nw, geohashEncode_se]
    dsimp only
    rw [show findCommonPfx "u0hcrm90rg6k".data "u0j0hbp210pb".data =
        "u0".data from by decide]
    have hfail : geohashPfxFilter "u0".data c1Track = false := by
      unfold geohashPfxFilter
      rw [hgh]
      decide
    simp [List.filter_cons, hfail]

/-- C1 (amended): membership in the pre-limit candidate set of
`GetTracksByBounds` is exactly (stored ∧ coarse geohash-prefix filter ∧
exact bounds overlap) — so a stored track whose bounding box overlaps the
query box is guaranteed to be a candidate only when its stored geohash also
extends the common prefix of the two corner geohashes (a condition that is
vacuous when that prefix is shorter than 2 characters); the same holds for
`GetTracksWithLocation` with all four bounds supplied, under its text and
range filters. The geohash prefix condition can therefore by itself exclude
a track that passes the exact bounds test. -/
theorem geohash_prefix_amended :
    (∀ (store : List TrackRec) (n s e w : ℚ) (t : TrackRec),
      t ∈ getTracksByBoundsCandidates store n s e w ↔
        t ∈ store ∧
          geohashPfxFilter
            (findCommonPfx (geohashEncode n w) (geohashEncode s e)) t = true ∧
          boundsOverlap t n s e w = true) ∧
    (∀ (store : List TrackRec) (n s e w : ℚ) (t : TrackRec),
      t ∈ store → boundsOverlap t n s e w = true →
      (findCommonPfx (geohashEncode n w) (geohashEncode s e)).isPrefixOf
          t.geohash = true →
      t ∈ getTracksByBoundsCandidates store n s e w) ∧
    (∀ (store : List TrackRec) (q : String) (n s e w : ℚ)
        (minDistance maxDistance : Option ℚ)
        (minDuration maxDuration : Option ℤ) (t : TrackRec),
      t ∈ store → boundsOverlap t n s e w = true →
      (findCommonPfx (geohashEncode n w) (geohashEncode s e)).isPrefixOf
          t.geohash = true →
      matchesText q t = true →
      matchesRanges minDistance maxDistance minDuration maxDuration t = true →
      t ∈ getTracksWithLocationCandidates store q (some n) (some s) (some e)
        (some w) minDistance maxDistance minDuration maxDuration) := by
  have hpf : ∀ (pfx : List Char) (t : TrackRec),
      pfx.isPrefixOf t.geohash = true → geohashPfxFilter pfx t = true := by
    intro pfx t h
    unfold geohashPfxFilter
    split
    · exact h
    · rfl
  refine ⟨?_, ?_, ?_⟩
  · intro store n s e w t
    unfold getTracksByBoundsCandidates
    rw [List.mem_filter, Bool.and_eq_true]
  · intro store n s e w t hmem hov hpfx
    unfold getTracksByBoundsCandidates
    rw [List.mem_filter, Bool.and_eq_true]
    exact ⟨hmem, hpf _ t hpfx, hov⟩
  · intro store q n s e w minD maxD minDur maxDur t hmem hov hpfx htext hran
    unfold getTracksWithLocationCandidates
    rw [List.mem_filter]
    refine ⟨hmem, ?_⟩
    have h1 := hpf (findCommonPfx (geohashEncode n w) (geohashEncode s e)) t hpfx
    dsimp only
    simp only [Bool.and_eq_true]
    tauto

/-- A stored track matching the counterexample's query box whose geohash
does extend the corner prefix. -/
def c1GoodTrack : TrackRec :=
  ⟨"good.gpx", "good", none, 0, 0, 181/4, 45, 29/4, 7, "u0j0hbp210pb".data⟩

/-- Witness for C1 (amended): the inclusion hypotheses are discharged on a
concrete overlapping, prefix-compatible track. -/
theorem geohash_prefix_amended_witness :
    c1GoodTrack ∈ getTracksByBoundsCandidates [c1GoodTrack] (181/4) 45
      (29/4) 7 :=
  geohash_prefix_amended.2.1 [c1GoodTrack] (181/4) 45 (29/4) 7 c1GoodTrack
    (by simp)
    (by
      unfold boundsOverlap c1GoodTrack
      simp only [Bool.and_eq_true, decide_eq_true_eq]
      norm_num)
    (by
      rw [geohashEncode_nw, geohashEncode_se]
      decide)

/-! ## HTTP handlers

Embedding of `TrackHandler.GetTracks`, `GetTracksByBounds` and
`GetTrackCoordinates`. gin's `c.Query` returns the empty string for an
absent parameter; a numeric query parameter is modelled as absent, malformed
(non-empty but failing `strconv` parsing) or a parsed value. Handler
responses are 200-with-payload or 400-with-message; the storage layer of
the model cannot fail, so 500 responses do not arise. -/

/-- A handler response. -/
inductive HResp (α : Type) where
  | ok (val : α)
  | badRequest (msg : String)
deriving DecidableEq

/-- One raw numeric query parameter as the handler sees it. -/
inductive RawParam (α : Type) where
  | absent
  | malformed
  | val (a : α)
deriving DecidableEq

/-- The pointer the handler passes to the service: set only when the
parameter was present and parsed. -/
def RawParam.toOpt {α : Type} : RawParam α → Option α
  | .val a => some a
  | _ => none

/-- The query parameters read by `GetTracks`. -/
structure GetTracksQuery where
  q : String
  minDistance : RawParam ℚ
  maxDistance : RawParam ℚ
  minDuration : RawParam ℤ
  maxDuration : RawParam ℤ
  north : RawParam ℚ
  south : RawParam ℚ
  east : RawParam ℚ
  west : RawParam ℚ
  limit : RawParam ℤ
  includeRoutes : Bool

/-- `GetTracks`'s limit parsing: default 1000, replaced only by a present,
parsed, positive value. -/
def getTracksLimit (p : GetTracksQuery) : Nat :=
  match p.limit with
  | .val v => if 0 < v then v.toNat else 1000
  | _ => 1000

/-- Embedding of the `GetTracks` handler: every bound that is absent or
fails parsing simply leaves its pointer nil; the request is never
rejected. -/
def getTracksHandler (p : GetTracksQuery) (store : List TrackRec) :
    HResp (List TrackRec) :=
  .ok (getTracksWithLocation store p.q p.north.toOpt p.south.toOpt
    p.east.toOpt p.west.toOpt p.minDistance.toOpt p.maxDistance.toOpt
    p.minDuration.toOpt p.maxDuration.toOpt (getTracksLimit p))

/-- Embedding of the `GetTracksByBounds` handler: absent bounds are
rejected first, then parse failures, in source order; the limit defaults to
100 and accepts only parsed values in 1..100. -/
def getTracksByBoundsHandler (north south east west : RawParam ℚ)
    (limit : RawParam ℤ) (store : List TrackRec) : HResp (List TrackRec) :=
  if north = .absent ∨ south = .absent ∨ east = .absent ∨ west = .absent then
    .badRequest "Missing bounds parameters (north, south, east, west)"
  else
    match north, south, east, west with
    | .malformed, _, _, _ => .badRequest "Invalid north coordinate"
    | _, .malformed, _, _ => .badRequest "Invalid south coordinate"
    | _, _, .malformed, _ => .badRequest "Invalid east coordinate"
    | _, _, _, .malformed => .badRequest "Invalid west coordinate"
    | .val n, .val s, .val e, .val w =>
      let lim : Nat :=
        match limit with
        | .val v => if 0 < v ∧ v ≤ 100 then v.toNat else 100
        | _ => 100
      .ok (getTracksByBounds store n s e w lim)
    | _, _, _, _ =>
      .badRequest "Missing bounds parameters (north, south, east, west)"

/-- C7 concrete store row. -/
def c7Track : TrackRec := ⟨"x.gpx", "x", none, 0, 0, 1, 0, 1, 0, []⟩

/-- C7 counterexample: a `GetTracks` request supplying exactly 3 of the 4
bounds (west missing) is not rejected: the handler answers 200 and queries
the store with no geographic filter at all, returning the stored track. -/
theorem bounds_validation_counterexample :
    getTracksHandler
      ⟨"", .absent, .absent, .absent, .absent,
        .val 45, .val 44, .val 8, .absent, .absent, false⟩
      [c7Track] = .ok [c7Track] := rfl

/-- C7 (amended): only the dedicated `GetTracksByBounds` endpoint rejects a
request missing any of the four bounds with a 400 before consulting the
store (the response does not depend on the store); the general `GetTracks`
endpoint never rejects — when any bound is absent or unparsed it silently
answers as if no bounds at all had been supplied. -/
theorem bounds_validation_amended :
    (∀ (north south east west : RawParam ℚ) (limit : RawParam ℤ)
        (store : List TrackRec),
      north = .absent ∨ south = .absent ∨ east = .absent ∨ west = .absent →
      getTracksByBoundsHandler north south east west limit store =
        .badRequest "Missing bounds parameters (north, south, east, west)") ∧
    (∀ (p : GetTracksQuery) (store : List TrackRec),
      p.north.toOpt = none ∨ p.south.toOpt = none ∨ p.east.toOpt = none ∨
          p.west.toOpt = none →
      getTracksHandler p store =
        .ok (getTracksWithLocation store p.q none none none none
          p.minDistance.toOpt p.maxDistance.toOpt p.minDuration.toOpt
          p.maxDuration.toOpt (getTracksLimit p))) := by
  constructor
  · intro north south east west limit store h
    unfold getTracksByBoundsHandler
    rw [if_pos h]
  · intro p store h
    unfold getTracksHandler getTracksWithLocation
      getTracksWithLocationCandidates
    cases hn : p.north.toOpt <;> cases hs : p.south.toOpt <;>
      cases he : p.east.toOpt <;> cases hw : p.west.toOpt <;>
      first
        | rfl
        | (rw [hn, hs, he, hw] at h; rcases h with h | h | h | h <;> cases h)

/-- Witness for C7 (amended): both rejection and silent-ignoring behaviour
at concrete inputs. -/
theorem bounds_validation_amended_witness :
    getTracksByBoundsHandler .absent (.val 1) (.val 1) (.val 1) .absent [] =
        .badRequest "Missing bounds parameters (north, south, east, west)" ∧
      getTracksHandler
          ⟨"", .absent, .absent, .absent, .absent,
            .val 45, .val 44, .val 8, .absent, .absent, false⟩ [] =
        .ok (getTracksWithLocation [] "" none none none none none none none
          none 1000) :=
  ⟨bounds_validation_amended.1 .absent (.val 1) (.val 1) (.val 1) .absent []
      (Or.inl rfl),
    bounds_validation_amended.2
      ⟨"", .absent, .absent, .absent, .absent,
        .val 45, .val 44, .val 8, .absent, .absent, false⟩ []
      (Or.inr (Or.inr (Or.inr rfl)))⟩

/-! ## Coordinate batch accessor

Embedding of `TrackService.GetTrackCoordinates` and its handler. The
track_points table is a list of rows; the Go result map is modelled as an
association list keyed in first-appearance order. -/

/-- A row of the track_points table, restricted to the selected columns. -/
structure PointRow where
  trackID : Nat
  lat : ℚ
  lon : ℚ
  ele : Option ℚ
deriving DecidableEq

/-- One entry of the coordinates payload. -/
structure Coord where
  latitude : ℚ
  longitude : ℚ
  elevation : Option ℚ
deriving DecidableEq

/-- Append a coordinate to the group of its track id
(`result[point.TrackID] = append(result[point.TrackID], coord)`). -/
def insertCoord (m : List (Nat × List Coord)) (id : Nat) (c : Coord) :
    List (Nat × List Coord) :=
  match m with
  | [] => [(id, [c])]
  | (k, v) :: rest =>
    if k = id then (k, v ++ [c]) :: rest else (k, v) :: insertCoord rest id c

/-- Embedding of the `GetTrackCoordinates` service method: select the rows
whose track_id is among the requested ids and group them by track id. -/
def getTrackCoordinates (store : List PointRow) (trackIDs : List Nat) :
    List (Nat × List Coord) :=
  (store.filter (fun r => r.trackID ∈ trackIDs)).foldl
    (fun m r => insertCoord m r.trackID ⟨r.lat, r.lon, r.ele⟩) []

/-- `strconv.ParseUint(s, 10, 32)`: digits only, non-empty, below 2^32. -/
def parseUintChars (s : List Char) : Option Nat :=
  if s = [] then none
  else if s.all Char.isDigit then
    let n := s.foldl (fun a c => 10 * a + (c.toNat - 48)) 0
    if n < 4294967296 then some n else none
  else none

/-- `strings.TrimSpace`. -/
def trimSpaceChars (s : List Char) : List Char :=
  ((s.dropWhile Char.isWhitespace).reverse.dropWhile Char.isWhitespace).reverse

/-- The handler's id-collection loop: blank pieces are skipped, a piece that
fails `ParseUint` aborts the whole request. -/
def parseTrackIDs : List (List Char) → Option (List Nat)
  | [] => some []
  | piece :: rest =>
    let t := trimSpaceChars piece
    if t = [] then parseTrackIDs rest
    else
      match parseUintChars t with
      | none => none
      | some id => (parseTrackIDs rest).map (fun ids => id :: ids)

/-- Embedding of the `GetTrackCoordinates` handler. -/
def getTrackCoordinatesHandler (idsParam : String) (store : List PointRow) :
    HResp (List (Nat × List Coord)) :=
  if idsParam = "" then .badRequest "Missing ids parameter"
  else
    match parseTrackIDs (idsParam.data.splitOn ',') with
    | none => .badRequest "Invalid track ID"
    | some ids =>
      if ids = [] then .badRequest "No valid track IDs provided"
      else if ids.length > 50 then
        .badRequest "Too many track IDs requested (max 50)"
      else .ok (getTrackCoordinates store ids)

theorem hasKey_insertCoord (m : List (Nat × List Coord)) (id k : Nat)
    (c : Coord) :
    (∃ cs, (k, cs) ∈ insertCoord m id c) ↔
      (∃ cs, (k, cs) ∈ m) ∨ k = id := by
  induction m with
  | nil =>
    simp [insertCoord]
  | cons p rest ih =>
    obtain ⟨pk, pv⟩ := p
    unfold insertCoord
    by_cases hk : pk = id
    · rw [if_pos hk]
      subst hk
      constructor
      · rintro ⟨cs, hcs⟩
        rcases List.mem_cons.1 hcs with h | h
        · exact Or.inr (congrArg Prod.fst h)
        · exact Or.inl ⟨cs, List.mem_cons_of_mem _ h⟩
      · rintro (⟨cs, hcs⟩ | hk)
        · rcases List.mem_cons.1 hcs with h | h
          · injection h with h1 h2
            exact ⟨pv ++ [c], h1 ▸ List.mem_cons_self _ _⟩
          · exact ⟨cs, List.mem_cons_of_mem _ h⟩
        · exact ⟨pv ++ [c], hk ▸ List.mem_cons_self _ _⟩
    · rw [if_neg hk]
      constructor
      · rintro ⟨cs, hcs⟩
        rcases List.mem_cons.1 hcs with h | h
        · exact Or.inl ⟨cs, by injection h with h1 h2; rw [h1, h2]; exact List.mem_cons_self _ _⟩
        · rcases ih.1 ⟨cs, h⟩ with h2 | h2
          · obtain ⟨cs2, hcs2⟩ := h2
            exact Or.inl ⟨cs2, List.mem_cons_of_mem _ hcs2⟩
          · exact Or.inr h2
      · rintro (⟨cs, hcs⟩ | hkid)
        · rcases List.mem_cons.1 hcs with h | h
          · exact ⟨cs, h ▸ List.mem_cons_self _ _⟩
          · rcases ih.2 (Or.inl ⟨cs, h⟩) with ⟨cs2, hcs2⟩
            exact ⟨cs2, List.mem_cons_of_mem _ hcs2⟩
        · rcases ih.2 (Or.inr hkid) with ⟨cs2, hcs2⟩
          exact ⟨cs2, List.mem_cons_of_mem _ hcs2⟩

theorem hasKey_coordFold (rows : List PointRow) :
    ∀ (m : List (Nat × List Coord)) (k : Nat),
      (∃ cs, (k, cs) ∈ rows.foldl
        (fun m r => insertCoord m r.trackID ⟨r.lat, r.lon, r.ele⟩) m) ↔
      ((∃ cs, (k, cs) ∈ m) ∨ ∃ r ∈ rows, r.trackID = k) := by
  induction rows with
  | nil => simp
  | cons r rest ih =>
    intro m k
    rw [List.foldl_cons]
    rw [ih (insertCoord m r.trackID ⟨r.lat, r.lon, r.ele⟩) k]
    rw [hasKey_insertCoord]
    constructor
    · rintro ((h | h) | h)
      · exact Or.inl h
      · exact Or.inr ⟨r, List.mem_cons_self _ _, h.symm⟩
      · obtain ⟨r2, hr2, hk⟩ := h
        exact Or.inr ⟨r2, List.mem_cons_of_mem _ hr2, hk⟩
    · rintro (h | ⟨r2, hr2, hk⟩)
      · exact Or.inl (Or.inl h)
      · rcases List.mem_cons.1 hr2 with h2 | h2
        · exact Or.inl (Or.inr (h2 ▸ hk).symm)
        · exact Or.inr ⟨r2, h2, hk⟩

/-- C4: the coordinate batch accessor. A request whose (parseable, at most
50, nonempty) ids all lack stored points answers 200 with an empty mapping;
the grouped result has an entry for an id exactly when the id was requested
and some stored row carries it — a nonexistent id yields no entry rather
than failing the batch; and a request naming more than 50 ids is rejected
with a 400. -/
theorem coordinate_batch_accessor :
    (∀ (idsParam : String) (store : List PointRow) (ids : List Nat),
      idsParam ≠ "" →
      parseTrackIDs (idsParam.data.splitOn ',') = some ids →
      ids ≠ [] → ids.length ≤ 50 →
      (∀ id ∈ ids, ∀ r ∈ store, r.trackID ≠ id) →
      getTrackCoordinatesHandler idsParam store = .ok []) ∧
    (∀ (store : List PointRow) (ids : List Nat) (k : Nat),
      (∃ cs, (k, cs) ∈ getTrackCoordinates store ids) ↔
        (k ∈ ids ∧ ∃ r ∈ store, r.trackID = k)) ∧
    (∀ (idsParam : String) (store : List PointRow) (ids : List Nat),
      idsParam ≠ "" →
      parseTrackIDs (idsParam.data.splitOn ',') = some ids →
      ids.length > 50 →
      getTrackCoordinatesHandler idsParam store =
        .badRequest "Too many track IDs requested (max 50)") := by
  have hchar : ∀ (store : List PointRow) (ids : List Nat) (k : Nat),
      (∃ cs, (k, cs) ∈ getTrackCoordinates store ids) ↔
        (k ∈ ids ∧ ∃ r ∈ store, r.trackID = k) := by
    intro store ids k
    unfold getTrackCoordinates
    rw [hasKey_coordFold]
    simp only [List.mem_filter]
    constructor
    · rintro (⟨cs, hcs⟩ | ⟨r, ⟨hr, hrid⟩, hk⟩)
      · cases hcs
      · refine ⟨?_, r, hr, hk⟩
        rw [← hk]
        exact of_decide_eq_true (by simpa using hrid)
    · rintro ⟨hkids, r, hr, hk⟩
      exact Or.inr ⟨r, ⟨hr, by simp [hk, hkids]⟩, hk⟩
  refine ⟨?_, hchar, ?_⟩
  · intro idsParam store ids hne hparse hnil hlen hnone
    unfold getTrackCoordinatesHandler
    rw [if_neg hne, hparse]
    dsimp only
    rw [if_neg hnil, if_neg (by omega : ¬ ids.length > 50)]
    have : getTrackCoordinates store ids = [] := by
      cases hg : getTrackCoordinates store ids with
      | nil => rfl
      | cons p rest =>
        obtain ⟨pk, pv⟩ := p
        have hk : ∃ cs, (pk, cs) ∈ getTrackCoordinates store ids := by
          rw [hg]
          exact ⟨pv, List.mem_cons_self _ _⟩
        rcases (hchar store ids pk).1 hk with ⟨hkids, r, hr, hrk⟩
        exact absurd hrk (hnone pk hkids r hr)
    rw [this]
  · intro idsParam store ids hne hparse hlen
    unfold getTrackCoordinatesHandler
    rw [if_neg hne, hparse]
    have hnil : ¬ ids = [] := by
      intro h
      rw [h] at hlen
      simp at hlen
    dsimp only
    rw [if_neg hnil, if_pos hlen]

/-- Witness for C4: the empty-result and over-cap clauses discharged on
concrete requests against a one-row store. -/
theorem coordinate_batch_accessor_witness :
    getTrackCoordinatesHandler "99" [⟨1, 0, 0, none⟩] = .ok [] ∧
      getTrackCoordinatesHandler
        "1,2,3,4,5,6,7,8,9,10,11,12,13,14,15,16,17,18,19,20,21,22,23,24,25,26,27,28,29,30,31,32,33,34,35,36,37,38,39,40,41,42,43,44,45,46,47,48,49,50,51"
        [⟨1, 0, 0, none⟩] =
        .badRequest "Too many track IDs requested (max 50)" :=
  ⟨coordinate_batch_accessor.1 "99" [⟨1, 0, 0, none⟩] [99] (by decide)
      (by decide) (by decide) (by decide)
      (by
        intro id hid r hr
        have hid' : id = 99 := by simpa using hid
        have hr' : r = ⟨1, 0, 0, none⟩ := by simpa using hr
        rw [hid', hr']
        decide),
    coordinate_batch_accessor.2.2
      "1,2,3,4,5,6,7,8,9,10,11,12,13,14,15,16,17,18,19,20,21,22,23,24,25,26,27,28,29,30,31,32,33,34,35,36,37,38,39,40,41,42,43,44,45,46,47,48,49,50,51"
      [⟨1, 0, 0, none⟩]
      [1,2,3,4,5,6,7,8,9,10,11,12,13,14,15,16,17,18,19,20,21,22,23,24,25,
       26,27,28,29,30,31,32,33,34,35,36,37,38,39,40,41,42,43,44,45,46,47,
       48,49,50,51]
      (by decide) (by decide) (by decide)⟩

/-! ## GPX parser

Embedding of `GPXService.ParseGPXData` / `processGPXData`. The XML decode
performed by the gpxgo library is abstracted: the parser's input is the
optional decoded document, `none` standing for bytes that are not
well-formed XML (on which `gpx.Parse` fails). Coordinates and elevations
are exact rationals, timestamps integer seconds. Distance is computed by a
separate function over the same point sequence because it is real-valued
(Haversine trigonometry) while the rest of the record is computable; the
source computes both in a single loop over the same points. -/

/-- One `<trkpt>`: coordinates with optional elevation and timestamp. -/
structure GpxPoint where
  lat : ℚ
  lon : ℚ
  ele : Option ℚ
  time : Option ℤ
deriving DecidableEq

/-- One `<trkseg>`. -/
structure GpxSegment where
  points : List GpxPoint
deriving DecidableEq

/-- One `<trk>`. -/
structure GpxTrackIn where
  name : String
  description : String
  segments : List GpxSegment
deriving DecidableEq

/-- A decoded GPX document. -/
structure GpxDoc where
  tracks : List GpxTrackIn
deriving DecidableEq

/-- The parsed `models.GPXTrack` record (the real-valued distance is
computed separately by `trackDistance`; the geohash is empty at parse
time). -/
structure GPXTrack where
  filename : String
  name : String
  description : Option String
  duration : ℤ
  elevationGain : ℚ
  elevationLoss : ℚ
  maxElevation : ℚ
  minElevation : ℚ
  startTime : Option ℤ
  endTime : Option ℤ
  north : ℚ
  south : ℚ
  east : ℚ
  west : ℚ
  points : List GpxPoint
deriving DecidableEq

/-- The loop state of `processGPXData`: running bounds, elevation extremes,
time extremes, naive gain/loss accumulators, previous elevation. All
numeric fields start at Go's zero value. -/
structure ParseState where
  firstPoint : Bool
  minLat : ℚ
  maxLat : ℚ
  minLon : ℚ
  maxLon : ℚ
  minEle : ℚ
  maxEle : ℚ
  startTime : Option ℤ
  endTime : Option ℤ
  gain : ℚ
  loss : ℚ
  prevEle : Option ℚ
deriving DecidableEq

def initParseState : ParseState :=
  ⟨true, 0, 0, 0, 0, 0, 0, none, none, 0, 0, none⟩

/-- The bounds / elevation-extremes / time-extremes update of one loop
iteration: the first point seeds the lat/lon bounds (and the elevation and
time extremes when it carries them); later points update by comparison. -/
def updateBounds (st : ParseState) (p : GpxPoint) : ParseState :=
  if st.firstPoint then
    { st with
      firstPoint := false
      minLat := p.lat, maxLat := p.lat
      minLon := p.lon, maxLon := p.lon
      minEle := match p.ele with | some e => e | none => st.minEle
      maxEle := match p.ele with | some e => e | none => st.maxEle
      startTime := match p.time with | some t => some t | none => st.startTime
      endTime := match p.time with | some t => some t | none => st.endTime }
  else
    { st with
      minLat := if p.lat < st.minLat then p.lat else st.minLat
      maxLat := if p.lat > st.maxLat then p.lat else st.maxLat
      minLon := if p.lon < st.minLon then p.lon else st.minLon
      maxLon := if p.lon > st.maxLon then p.lon else st.maxLon
      minEle := match p.ele with
        | some e => if e < st.minEle then e else st.minEle
        | none => st.minEle
      maxEle := match p.ele with
        | some e => if e > st.maxEle then e else st.maxEle
        | none => st.maxEle
      startTime := match p.time, st.startTime with
        | some t, none => some t
        | some t, some s => if t < s then some t else some s
        | none, s => s
      endTime := match p.time, st.endTime with
        | some t, none => some t
        | some t, some s => if t > s then some t else some s
        | none, s => s }

/-- The naive consecutive-delta gain/loss update (the server ingestion
path): positive deltas to gain, non-positive ones to loss as an absolute
value. -/
def updateGainLoss (st : ParseState) (p : GpxPoint) : ParseState :=
  match p.ele, st.prevEle with
  | some e, some pe =>
    let d := e - pe
    if d > 0 then { st with gain := st.gain + d }
    else { st with loss := st.loss + |d| }
  | _, _ => st

/-- `prevElevation` is advanced only by points that carry elevation. -/
def updatePrevEle (st : ParseState) (p : GpxPoint) : ParseState :=
  match p.ele with
  | some e => { st with prevEle := some e }
  | none => st

/-- One full iteration of the `processGPXData` point loop. -/
def processPoint (st : ParseState) (p : GpxPoint) : ParseState :=
  updatePrevEle (updateGainLoss (updateBounds st p) p) p

/-- Strip the extension (`strings.TrimSuffix(base, filepath.Ext(base))`). -/
def stripExtChars (s : List Char) : List Char :=
  if '.' ∈ s then ((s.reverse.dropWhile (· != '.')).drop 1).reverse
  else s

/-- Embedding of `processGPXData`: fails when the document has no track;
otherwise digests the first track's concatenated segments. -/
def processGPXData (doc : GpxDoc) (filename : String) :
    Except String GPXTrack :=
  match doc.tracks with
  | [] => .error "no tracks found in GPX file"
  | track :: _ =>
    let pts := (track.segments.map (·.points)).flatten
    let st := pts.foldl processPoint initParseState
    .ok {
      filename := filename
      name := if track.name = "" then
          ⟨stripExtChars (baseName filename).data⟩
        else track.name
      description := if track.description = "" then none
        else some track.description
      duration := match st.startTime, st.endTime with
        | some s, some e => e - s
        | _, _ => 0
      elevationGain := st.gain
      elevationLoss := st.loss
      maxElevation := st.maxEle
      minElevation := st.minEle
      startTime := st.startTime
      endTime := st.endTime
      north := st.maxLat
      south := st.minLat
      east := st.maxLon
      west := st.minLon
      points := pts }

/-- Embedding of `ParseGPXData`. -/
def parseGPXData (input : Option GpxDoc) (filename : String) :
    Except String GPXTrack :=
  match input with
  | none => .error "failed to parse GPX"
  | some doc => processGPXData doc filename

/-- `math.Atan2`. -/
noncomputable def atan2R (y x : ℝ) : ℝ :=
  if 0 < x then Real.arctan (y / x)
  else if x < 0 then
    (if 0 ≤ y then Real.arctan (y / x) + Real.pi
     else Real.arctan (y / x) - Real.pi)
  else if 0 < y then Real.pi / 2
  else if y < 0 then -(Real.pi / 2)
  else 0

/-- Embedding of `haversineDistance` over the reals. -/
noncomputable def haversineDistance (lat1 lon1 lat2 lon2 : ℚ) : ℝ :=
  let lat1Rad : ℝ := (lat1 : ℝ) * Real.pi / 180
  let lon1Rad : ℝ := (lon1 : ℝ) * Real.pi / 180
  let lat2Rad : ℝ := (lat2 : ℝ) * Real.pi / 180
  let lon2Rad : ℝ := (lon2 : ℝ) * Real.pi / 180
  let deltaLat := lat2Rad - lat1Rad
  let deltaLon := lon2Rad - lon1Rad
  let a := Real.sin (deltaLat / 2) * Real.sin (deltaLat / 2) +
    Real.cos lat1Rad * Real.cos lat2Rad *
      (Real.sin (deltaLon / 2) * Real.sin (deltaLon / 2))
  let c := 2 * atan2R (Real.sqrt a) (Real.sqrt (1 - a))
  6371000 * c

/-- Total distance: sum of pairwise Haversine distances over consecutive
points (the loop's `prevPoint` chain). -/
noncomputable def trackDistance : List GpxPoint → ℝ
  | p1 :: p2 :: rest =>
    haversineDistance p1.lat p1.lon p2.lat p2.lon + trackDistance (p2 :: rest)
  | _ => 0

theorem arctan_nonneg_of_nonneg {x : ℝ} (h : 0 ≤ x) : 0 ≤ Real.arctan x := by
  rw [← Real.arctan_zero]
  exact Real.arctan_strictMono.monotone h

theorem atan2R_nonneg {y x : ℝ} (hy : 0 ≤ y) : 0 ≤ atan2R y x := by
  unfold atan2R
  have hpi := Real.pi_pos
  have harct := Real.neg_pi_div_two_lt_arctan (y / x)
  split_ifs
  all_goals first
    | exact arctan_nonneg_of_nonneg (div_nonneg hy (le_of_lt ‹0 < x›))
    | linarith

theorem haversineDistance_nonneg (lat1 lon1 lat2 lon2 : ℚ) :
    0 ≤ haversineDistance lat1 lon1 lat2 lon2 := by
  unfold haversineDistance
  dsimp only
  refine mul_nonneg (by norm_num) (mul_nonneg (by norm_num) ?_)
  exact atan2R_nonneg (Real.sqrt_nonneg _)

/-- The time-extremes relation maintained by the loop: start and end are
set together, start never after end. -/
def TimeInv (startT endT : Option ℤ) : Prop :=
  match startT, endT with
  | some s, some e => s ≤ e
  | none, none => True
  | _, _ => False

/-- Loop invariant of `processGPXData`: non-negative accumulators, ordered
bounds, coherent time extremes. -/
def ParseInv (st : ParseState) : Prop :=
  0 ≤ st.gain ∧ 0 ≤ st.loss ∧ st.minLat ≤ st.maxLat ∧ st.minLon ≤ st.maxLon ∧
    TimeInv st.startTime st.endTime

theorem updateBounds_inv (st : ParseState) (p : GpxPoint)
    (h : ParseInv st) : ParseInv (updateBounds st p) := by
  obtain ⟨hg, hl, hlat, hlon, ht⟩ := h
  unfold updateBounds
  by_cases hf : st.firstPoint
  · rw [if_pos hf]
    refine ⟨hg, hl, le_refl _, le_refl _, ?_⟩
    cases hpt : p.time
    · exact ht
    · exact le_refl _
  · rw [if_neg hf]
    refine ⟨hg, hl, ?_, ?_, ?_⟩
    · dsimp only
      split_ifs <;> linarith
    · dsimp only
      split_ifs <;> linarith
    · dsimp only
      cases hpt : p.time with
      | none =>
        cases hs : st.startTime <;> cases he : st.endTime <;>
          rw [hs, he] at ht <;> exact ht
      | some t =>
        cases hs : st.startTime <;> cases he : st.endTime <;>
          rw [hs, he] at ht
        · exact le_refl _
        · exact absurd ht (by simp [TimeInv])
        · exact absurd ht (by simp [TimeInv])
        · have hse : _ ≤ _ := ht
          dsimp only
          unfold TimeInv
          split_ifs <;> dsimp only <;> linarith

theorem updateGainLoss_inv (st : ParseState) (p : GpxPoint)
    (h : ParseInv st) : ParseInv (updateGainLoss st p) := by
  obtain ⟨hg, hl, hlat, hlon, ht⟩ := h
  unfold updateGainLoss
  cases hpe : p.ele with
  | none => exact ⟨hg, hl, hlat, hlon, ht⟩
  | some e =>
    cases hprev : st.prevEle with
    | none => exact ⟨hg, hl, hlat, hlon, ht⟩
    | some pe =>
      dsimp only
      split_ifs with hd
      · refine ⟨?_, hl, hlat, hlon, ht⟩
        dsimp only
        linarith
      · refine ⟨hg, ?_, hlat, hlon, ht⟩
        dsimp only
        have habs : 0 ≤ |e - pe| := abs_nonneg _
        linarith

theorem updatePrevEle_inv (st : ParseState) (p : GpxPoint)
    (h : ParseInv st) : ParseInv (updatePrevEle st p) := by
  obtain ⟨hg, hl, hlat, hlon, ht⟩ := h
  unfold updatePrevEle
  cases p.ele
  · exact ⟨hg, hl, hlat, hlon, ht⟩
  · exact ⟨hg, hl, hlat, hlon, ht⟩

theorem processPoint_inv (st : ParseState) (p : GpxPoint)
    (h : ParseInv st) : ParseInv (processPoint st p) :=
  updatePrevEle_inv _ _ (updateGainLoss_inv _ _ (updateBounds_inv _ _ h))

theorem foldPoints_inv (pts : List GpxPoint) :
    ∀ st : ParseState, ParseInv st → ParseInv (pts.foldl processPoint st) := by
  induction pts with
  | nil => intro st h; exact h
  | cons p rest ih =>
    intro st h
    rw [List.foldl_cons]
    exact ih _ (processPoint_inv st p h)

theorem trackDistance_nonneg (pts : List GpxPoint) :
    0 ≤ trackDistance pts := by
  induction pts with
  | nil => exact le_refl 0
  | cons p rest ih =>
    cases rest with
    | nil => exact le_refl 0
    | cons q rest2 =>
      unfold trackDistance
      have h1 := haversineDistance_nonneg p.lat p.lon q.lat q.lon
      have h2 : 0 ≤ trackDistance (q :: rest2) := ih
      linarith

/-- C8: the GPX parser fails exactly on undecodable XML (`none` input) or a
document without a track element; every decodable document with at least
one track — including one whose first track has no points — yields a
parsed track. -/
theorem gpx_parser_error_contract :
    (∀ filename : String, ∃ e, parseGPXData none filename = .error e) ∧
    (∀ (doc : GpxDoc) (filename : String), doc.tracks = [] →
      ∃ e, parseGPXData (some doc) filename = .error e) ∧
    (∀ (doc : GpxDoc) (filename : String), doc.tracks ≠ [] →
      ∃ t, parseGPXData (some doc) filename = .ok t) := by
  refine ⟨fun filename => ⟨_, rfl⟩, ?_, ?_⟩
  · intro doc filename h
    unfold parseGPXData processGPXData
    dsimp only
    rw [h]
    exact ⟨_, rfl⟩
  · intro doc filename h
    unfold parseGPXData processGPXData
    dsimp only
    cases hd : doc.tracks with
    | nil => exact absurd hd h
    | cons track rest => exact ⟨_, rfl⟩

/-- Witness for C8: the error and success clauses discharged on concrete
documents — in particular a document whose only track has zero points
parses successfully. -/
theorem gpx_parser_error_contract_witness :
    (∃ e, parseGPXData none "a.gpx" = .error e) ∧
    (∃ e, parseGPXData (some ⟨[]⟩) "a.gpx" = .error e) ∧
    (∃ t, parseGPXData (some ⟨[⟨"", "", []⟩]⟩) "a.gpx" = .ok t) :=
  ⟨gpx_parser_error_contract.1 "a.gpx",
    gpx_parser_error_contract.2.1 ⟨[]⟩ "a.gpx" rfl,
    gpx_parser_error_contract.2.2 ⟨[⟨"", "", []⟩]⟩ "a.gpx" (by simp)⟩

/-- C9: every successfully parsed track satisfies the data-model
invariants: non-negative elevation gain, loss, duration and distance, and
an ordered bounding box (north ≥ south, east ≥ west — the running min/max
over the points, seeded from the first point). -/
theorem parsed_track_invariants :
    ∀ (input : Option GpxDoc) (filename : String) (t : GPXTrack),
      parseGPXData input filename = .ok t →
      0 ≤ t.elevationGain ∧ 0 ≤ t.elevationLoss ∧ 0 ≤ t.duration ∧
        t.south ≤ t.north ∧ t.west ≤ t.east ∧ 0 ≤ trackDistance t.points := by
  intro input filename t h
  cases input with
  | none => cases h
  | some doc =>
    unfold parseGPXData processGPXData at h
    dsimp only at h
    cases hd : doc.tracks with
    | nil => rw [hd] at h; cases h
    | cons track rest =>
      rw [hd] at h
      dsimp only at h
      have hinv := foldPoints_inv
        ((track.segments.map (·.points)).flatten) initParseState
        ⟨le_refl 0, le_refl 0, le_refl 0, le_refl 0, trivial⟩
      obtain ⟨hg, hl, hlat, hlon, ht⟩ := hinv
      injection h with h
      subst h
      refine ⟨hg, hl, ?_, hlat, hlon, trackDistance_nonneg _⟩
      dsimp only
      cases hs : ((track.segments.map (·.points)).flatten.foldl processPoint
          initParseState).startTime with
      | none =>
        cases he : ((track.segments.map (·.points)).flatten.foldl processPoint
            initParseState).endTime
        · exact le_refl 0
        · exact le_refl 0
      | some st0 =>
        cases he : ((track.segments.map (·.points)).flatten.foldl processPoint
            initParseState).endTime with
        | none => exact le_refl 0
        | some en0 =>
          rw [hs, he] at ht
          have hse : st0 ≤ en0 := ht
          dsimp only
          omega

/-- A concrete one-point document for the C9 witness. -/
def c9Doc : GpxDoc := ⟨[⟨"n", "", [⟨[⟨1, 2, some 5, some 10⟩]⟩]⟩]⟩

/-- The track `c9Doc` parses to. -/
def c9Track : GPXTrack :=
  ⟨"a.gpx", "n", none, 0, 0, 0, 5, 5, some 10, some 10, 1, 1, 2, 2,
    [⟨1, 2, some 5, some 10⟩]⟩

/-- Witness for C9: the parse-success hypothesis discharged on a concrete
document. -/
theorem parsed_track_invariants_witness :
    0 ≤ c9Track.elevationGain ∧ 0 ≤ c9Track.elevationLoss ∧
      0 ≤ c9Track.duration ∧ c9Track.south ≤ c9Track.north ∧
      c9Track.west ≤ c9Track.east ∧ 0 ≤ trackDistance c9Track.points :=
  parsed_track_invariants (some c9Doc) "a.gpx" c9Track (by rfl)

/-! ## GPX download generator

Embedding of `TrackService.generateGPX`, which builds the download document
by string concatenation, interpolating the stored name and description
verbatim (no XML escaping). `%.2f`/`%.6f` formatting is modelled by decimal
rounding of the exact rational; the `<time>` layout
`2006-01-02T15:04:05Z` by a Gregorian civil-date conversion of the integer
Unix timestamp. -/

/-- Decimal digits of a natural number (fuel-based so that the kernel can
evaluate it). -/
def natDigitsAux : Nat → Nat → List Char → List Char
  | 0, _, acc => acc
  | fuel + 1, n, acc =>
    if n < 10 then Char.ofNat (48 + n) :: acc
    else natDigitsAux fuel (n / 10) (Char.ofNat (48 + n % 10) :: acc)

def natDigits (n : Nat) : List Char := natDigitsAux (n + 1) n []

/-- `%.Nf`: sign, integer part, dot, zero-padded fractional part. -/
def fmtFixed (prec : Nat) (q : ℚ) : List Char :=
  let k := Int.toNat ⌊|q| * (10 : ℚ) ^ prec + 1/2⌋
  let fracDigits := natDigits (k % 10 ^ prec)
  (if q < 0 then [Char.ofNat 45] else []) ++ natDigits (k / 10 ^ prec) ++
    Char.ofNat 46 ::
      (List.replicate (prec - fracDigits.length) (Char.ofNat 48) ++ fracDigits)

/-- Two-digit zero padding. -/
def pad2 (n : Nat) : List Char :=
  if n < 10 then Char.ofNat 48 :: natDigits n else natDigits n

/-- Four-digit zero padding. -/
def pad4 (n : Nat) : List Char :=
  List.replicate (4 - (natDigits n).length) (Char.ofNat 48) ++ natDigits n

/-- Gregorian civil date from days since the Unix epoch. -/
def civilFromDays (z0 : ℤ) : ℤ × ℕ × ℕ :=
  let z := z0 + 719468
  let era := Int.fdiv z 146097
  let doe := (z - era * 146097).toNat
  let yoe := (doe - doe / 1460 + doe / 36524 - doe / 146096) / 365
  let y : ℤ := (yoe : ℤ) + era * 400
  let doy := doe - (365 * yoe + yoe / 4 - yoe / 100)
  let mp := (5 * doy + 2) / 153
  let d := doy - (153 * mp + 2) / 5 + 1
  let m := if mp < 10 then mp + 3 else mp - 9
  (if m ≤ 2 then y + 1 else y, m, d)

/-- The year component (negative years keep their sign). -/
def yearChars (y : ℤ) : List Char :=
  if y < 0 then Char.ofNat 45 :: pad4 y.natAbs else pad4 y.toNat

/-- The `2006-01-02T15:04:05Z` layout of a UTC Unix timestamp. -/
def timeFmt (t : ℤ) : List Char :=
  let days := Int.fdiv t 86400
  let secs := (Int.fmod t 86400).toNat
  let ymd := civilFromDays days
  yearChars ymd.1 ++ Char.ofNat 45 :: pad2 ymd.2.1 ++
    Char.ofNat 45 :: pad2 ymd.2.2 ++
    Char.ofNat 84 :: pad2 (secs / 3600) ++
    Char.ofNat 58 :: pad2 (secs % 3600 / 60) ++
    Char.ofNat 58 :: pad2 (secs % 60) ++ [Char.ofNat 90]

/-- The fixed document head: XML declaration and `<gpx>` open tag. -/
def xmlHeaderChars : List Char :=
  ("<?xml version=\"1.0\" encoding=\"UTF-8\"?>" ++
    "<gpx version=\"1.1\" creator=\"MyTracks\" " ++
    "xmlns=\"http://www.topografix.com/GPX/1/1\">").data

/-- The `<name>` section, written verbatim when the name is nonempty. -/
def nameSection (name : String) : List Char :=
  if name = "" then [] else "<name>".data ++ name.data ++ "</name>".data

/-- The `<desc>` section, written verbatim when present and nonempty. -/
def descSection (desc : Option String) : List Char :=
  match desc with
  | some d => if d = "" then [] else "<desc>".data ++ d.data ++ "</desc>".data
  | none => []

/-- The `<ele>` child of a point, when elevation is present. -/
def eleSection (ele : Option ℚ) : List Char :=
  match ele with
  | some e => "<ele>".data ++ fmtFixed 2 e ++ "</ele>".data
  | none => []

/-- The `<time>` child of a point, when a timestamp is present. -/
def timeSection (tm : Option ℤ) : List Char :=
  match tm with
  | some tv => "<time>".data ++ timeFmt tv ++ "</time>".data
  | none => []

/-- One `<trkpt>` element. -/
def trkptChars (p : GpxPoint) : List Char :=
  "<trkpt lat=\"".data ++ fmtFixed 6 p.lat ++ "\" lon=\"".data ++
    fmtFixed 6 p.lon ++ "\">".data ++ eleSection p.ele ++
    timeSection p.time ++ "</trkpt>".data

/-- Embedding of `generateGPX`. -/
def generateGPX (t : GPXTrack) : List Char :=
  xmlHeaderChars ++ nameSection t.name ++ descSection t.description ++
    "<trk>".data ++ nameSection t.name ++ "<trkseg>".data ++
    (t.points.map trkptChars).flatten ++ "</trkseg></trk></gpx>".data

/-! A small XML well-formedness checker: a character-level scanner that
tracks the open-tag stack, accepts declarations and self-closing tags, and
rejects a raw angle bracket inside a tag, a raw ampersand in text, and
mismatched or unclosed tags. -/

/-- Scanner state. -/
inductive XmlScan where
  | text (stack : List (List Char))
  | tag (acc : List Char) (stack : List (List Char))
  | failed
deriving DecidableEq

/-- Tag name: the token up to the first space. -/
def tagName (tok : List Char) : List Char := tok.takeWhile (· != ' ')

/-- One scanner step. -/
def xmlStep (st : XmlScan) (c : Char) : XmlScan :=
  match st with
  | .failed => .failed
  | .text stack =>
    if c = '<' then .tag [] stack
    else if c = '&' then .failed
    else .text stack
  | .tag acc stack =>
    if c = '<' then .failed
    else if c = '>' then
      match acc.reverse with
      | [] => .failed
      | c0 :: rest =>
        if c0 = '?' then .text stack
        else if c0 = '/' then
          match stack with
          | [] => .failed
          | top :: stack2 => if top = rest then .text stack2 else .failed
        else if (c0 :: rest).getLast? = some '/' then .text stack
        else .text (tagName (c0 :: rest) :: stack)
    else .tag (c :: acc) stack

/-- Whole-document well-formedness. -/
def xmlWellFormed (s : List Char) : Bool :=
  match s.foldl xmlStep (.text []) with
  | .text [] => true
  | _ => false

set_option maxRecDepth 40000

/-- The pattern whose occurrences identify track points in the document. -/
def patTrkpt : List Char := "<trkpt".data

/-- The opening of one `<trkpt>` element up to (excluding) its `>`. -/
def trkptOpen (p : GpxPoint) : List Char :=
  "<trkpt lat=\"".data ++ fmtFixed 6 p.lat ++ "\" lon=\"".data ++
    fmtFixed 6 p.lon ++ [Char.ofNat 34]

/-- The suffixes of `s` starting at each occurrence of `pat`, in order. -/
def occSuffixes (pat : List Char) : List Char → List (List Char)
  | [] => []
  | c :: s =>
    (if pat.isPrefixOf (c :: s) then [c :: s] else []) ++ occSuffixes pat s

/-- No nonempty suffix of `a` is prefix-compatible with `pat` in either
direction: `pat` neither occurs in `a` nor straddles its right edge. -/
def QA (pat a : List Char) : Prop :=
  ∀ s, s <:+ a → s ≠ [] → ¬ s <+: pat ∧ ¬ pat <+: s

/-- Decidable check for `QA` on concrete lists. -/
def qaCheck (pat a : List Char) : Bool :=
  a.tails.all (fun s => s.isEmpty || (!(s.isPrefixOf pat) && !(pat.isPrefixOf s)))

theorem qaCheck_sound {pat a : List Char} (h : qaCheck pat a = true) :
    QA pat a := by
  intro s hs hne
  have hmem : s ∈ a.tails := by
    rw [List.mem_tails]
    exact hs
  have := (List.all_eq_true.1 h) s hmem
  rw [Bool.or_eq_true] at this
  rcases this with h1 | h1
  · exact absurd (List.isEmpty_iff.1 h1) hne
  · rw [Bool.and_eq_true] at h1
    constructor
    · intro hc
      rw [← List.isPrefixOf_iff_prefix] at hc
      rw [hc] at h1
      cases h1.1
    · intro hc
      rw [← List.isPrefixOf_iff_prefix] at hc
      rw [hc] at h1
      cases h1.2

theorem head_mem_of_suffix {s a : List Char} (hs : s <:+ a) {c : Char}
    (hc : s.head? = some c) : c ∈ a := by
  cases s with
  | nil => cases hc
  | cons x t =>
    have hx : x = c := by simpa using hc
    exact hs.subset (hx ▸ List.mem_cons_self x t)

theorem head?_of_prefix {s t : List Char} (h : s <+: t) (hne : s ≠ []) :
    t.head? = s.head? := by
  obtain ⟨r, rfl⟩ := h
  cases s with
  | nil => exact absurd rfl hne
  | cons x u => rfl

/-- `QA` holds for any list avoiding the pattern's first character. -/
theorem QA_of_not_mem {pat a : List Char} {h0 : Char}
    (hp : pat.head? = some h0) (hna : h0 ∉ a) : QA pat a := by
  intro s hs hne
  constructor
  · intro hc
    have := head?_of_prefix hc hne
    rw [hp] at this
    exact hna (head_mem_of_suffix hs this.symm)
  · intro hc
    have hpne : pat ≠ [] := by
      intro he
      rw [he] at hp
      cases hp
    have := head?_of_prefix hc hpne
    rw [hp] at this
    exact hna (head_mem_of_suffix hs this)

/-- A `pat`-prefix of an append is prefix-comparable with the left part. -/
theorem prefix_append_disj {pat s b : List Char} (h : pat <+: s ++ b) :
    pat <+: s ∨ s <+: pat := by
  obtain ⟨r, hr⟩ := h
  rcases le_or_lt pat.length s.length with hl | hl
  · left
    have h1 : (s ++ b).take pat.length = pat := by
      rw [← hr]
      exact List.take_left pat r
    rw [← h1, List.take_append_of_le_length hl]
    exact List.take_prefix _ _
  · right
    have h1 : (pat ++ r).take s.length = s := by
      rw [hr]
      exact List.take_left s b
    rw [← h1, List.take_append_of_le_length (le_of_lt hl)]
    exact List.take_prefix _ _

/-- `QA` composes over append. -/
theorem QA_append {pat x y : List Char} (hx : QA pat x) (hy : QA pat y) :
    QA pat (x ++ y) := by
  intro s hs hne
  obtain ⟨t, ht⟩ := hs
  rcases List.append_eq_append_iff.1 ht with ⟨a2, hx2, hs2⟩ | ⟨c2, ht2, hy2⟩
  · by_cases ha2 : a2 = []
    · subst ha2
      rw [List.nil_append] at hs2
      subst hs2
      exact hy s (List.suffix_refl s) hne
    · have ha2s : a2 <:+ x := hx2 ▸ ⟨t, rfl⟩
      have hqa := hx a2 ha2s ha2
      subst hs2
      constructor
      · intro hc
        exact hqa.1 ((List.prefix_append a2 y).trans hc)
      · intro hc
        rcases prefix_append_disj hc with h1 | h1
        · exact hqa.2 h1
        · exact hqa.1 h1
  · exact hy s ⟨c2, hy2.symm⟩ hne

/-- Occurrence suffixes skip a `QA` left part entirely. -/
theorem occSuffixes_append_QA {pat : List Char}
    {a : List Char} (ha : QA pat a) (b : List Char) :
    occSuffixes pat (a ++ b) = occSuffixes pat b := by
  induction a with
  | nil => rfl
  | cons c a2 ih =>
    rw [List.cons_append]
    rw [show occSuffixes pat (c :: (a2 ++ b)) =
      (if pat.isPrefixOf (c :: (a2 ++ b)) then [c :: (a2 ++ b)] else []) ++
        occSuffixes pat (a2 ++ b) from rfl]
    have hno : pat.isPrefixOf (c :: (a2 ++ b)) = false := by
      rw [← Bool.not_eq_true]
      intro hc
      rw [List.isPrefixOf_iff_prefix] at hc
      rw [← List.cons_append] at hc
      rcases prefix_append_disj hc with h1 | h1
      · exact (ha (c :: a2) (List.suffix_refl _) (by simp)).2 h1
      · exact (ha (c :: a2) (List.suffix_refl _) (by simp)).1 h1
    rw [hno]
    simp only [Bool.false_eq_true, if_false, List.nil_append]
    exact ih (fun s hs hne => ha s (hs.trans (List.suffix_cons c a2)) hne)

/-- Character set of the numeric and timestamp formatters: sign, dot,
colon, T, Z, decimal digits. -/
def FmtChar (c : Char) : Prop :=
  c = Char.ofNat 45 ∨ c = Char.ofNat 46 ∨ c = Char.ofNat 58 ∨
    c = Char.ofNat 84 ∨ c = Char.ofNat 90 ∨
    ∃ d, d < 10 ∧ c = Char.ofNat (48 + d)

theorem FmtChar_ne {c : Char} (h : FmtChar c) : c ≠ '<' ∧ c ≠ '>' := by
  rcases h with h | h | h | h | h | ⟨d, hd, h⟩ <;> subst h
  · exact ⟨by decide, by decide⟩
  · exact ⟨by decide, by decide⟩
  · exact ⟨by decide, by decide⟩
  · exact ⟨by decide, by decide⟩
  · exact ⟨by decide, by decide⟩
  · interval_cases d <;> exact ⟨by decide, by decide⟩

theorem natDigitsAux_mem {c : Char} :
    ∀ {fuel n : Nat} {acc : List Char}, c ∈ natDigitsAux fuel n acc →
      c ∈ acc ∨ ∃ d, d < 10 ∧ c = Char.ofNat (48 + d) := by
  intro fuel
  induction fuel with
  | zero => intro n acc h; exact Or.inl h
  | succ fuel ih =>
    intro n acc h
    unfold natDigitsAux at h
    by_cases hn : n < 10
    · rw [if_pos hn] at h
      rcases List.mem_cons.1 h with h1 | h1
      · exact Or.inr ⟨n, hn, h1⟩
      · exact Or.inl h1
    · rw [if_neg hn] at h
      rcases ih h with h1 | h1
      · rcases List.mem_cons.1 h1 with h2 | h2
        · exact Or.inr ⟨n % 10, Nat.mod_lt n (by omega), h2⟩
        · exact Or.inl h2
      · exact Or.inr h1

theorem natDigits_FmtChar {n : Nat} {c : Char} (h : c ∈ natDigits n) :
    FmtChar c := by
  rcases natDigitsAux_mem h with h1 | h1
  · cases h1
  · exact Or.inr (Or.inr (Or.inr (Or.inr (Or.inr h1))))

theorem fmtFixed_FmtChar {prec : Nat} {q : ℚ} {c : Char}
    (h : c ∈ fmtFixed prec q) : FmtChar c := by
  unfold fmtFixed at h
  rw [List.mem_append, List.mem_append] at h
  rcases h with (h | h) | h
  · by_cases hq : q < 0
    · rw [if_pos hq] at h
      rcases List.mem_singleton.1 h with rfl
      exact Or.inl rfl
    · rw [if_neg hq] at h
      cases h
  · exact natDigits_FmtChar h
  · rcases List.mem_cons.1 h with h1 | h1
    · exact Or.inr (Or.inl h1)
    · rw [List.mem_append] at h1
      rcases h1 with h2 | h2
      · rcases List.eq_of_mem_replicate h2 with rfl
        exact Or.inr (Or.inr (Or.inr (Or.inr (Or.inr ⟨0, by omega, rfl⟩))))
      · exact natDigits_FmtChar h2

theorem pad2_FmtChar {n : Nat} {c : Char} (h : c ∈ pad2 n) : FmtChar c := by
  unfold pad2 at h
  by_cases hn : n < 10
  · rw [if_pos hn] at h
    rcases List.mem_cons.1 h with h1 | h1
    · exact h1 ▸ Or.inr (Or.inr (Or.inr (Or.inr (Or.inr ⟨0, by omega, rfl⟩))))
    · exact natDigits_FmtChar h1
  · rw [if_neg hn] at h
    exact natDigits_FmtChar h

theorem pad4_FmtChar {n : Nat} {c : Char} (h : c ∈ pad4 n) : FmtChar c := by
  unfold pad4 at h
  rw [List.mem_append] at h
  rcases h with h | h
  · rcases List.eq_of_mem_replicate h with rfl
    exact Or.inr (Or.inr (Or.inr (Or.inr (Or.inr ⟨0, by omega, rfl⟩))))
  · exact natDigits_FmtChar h

theorem yearChars_FmtChar {y : ℤ} {c : Char} (h : c ∈ yearChars y) :
    FmtChar c := by
  unfold yearChars at h
  by_cases hy : y < 0
  · rw [if_pos hy] at h
    rcases List.mem_cons.1 h with h1 | h1
    · exact Or.inl h1
    · exact pad4_FmtChar h1
  · rw [if_neg hy] at h
    exact pad4_FmtChar h

theorem timeFmt_FmtChar {t : ℤ} {c : Char} (h : c ∈ timeFmt t) :
    FmtChar c := by
  unfold timeFmt at h
  simp only [List.append_assoc, List.cons_append] at h
  rcases List.mem_append.1 h with h | h
  · exact yearChars_FmtChar h
  rcases List.mem_cons.1 h with h | h
  · exact h ▸ Or.inl rfl
  rcases List.mem_append.1 h with h | h
  · exact pad2_FmtChar h
  rcases List.mem_cons.1 h with h | h
  · exact h ▸ Or.inl rfl
  rcases List.mem_append.1 h with h | h
  · exact pad2_FmtChar h
  rcases List.mem_cons.1 h with h | h
  · exact h ▸ Or.inr (Or.inr (Or.inr (Or.inl rfl)))
  rcases List.mem_append.1 h with h | h
  · exact pad2_FmtChar h
  rcases List.mem_cons.1 h with h | h
  · exact h ▸ Or.inr (Or.inr (Or.inl rfl))
  rcases List.mem_append.1 h with h | h
  · exact pad2_FmtChar h
  rcases List.mem_cons.1 h with h | h
  · exact h ▸ Or.inr (Or.inr (Or.inl rfl))
  rcases List.mem_append.1 h with h | h
  · exact pad2_FmtChar h
  · exact (List.mem_singleton.1 h) ▸
      Or.inr (Or.inr (Or.inr (Or.inr (Or.inl rfl))))

theorem patTrkpt_head : patTrkpt.head? = some '<' := rfl

theorem QA_nil : QA patTrkpt [] := by
  intro s hs hne
  rw [List.suffix_nil] at hs
  exact absurd hs hne

theorem QA_fmtFixed (prec : Nat) (q : ℚ) : QA patTrkpt (fmtFixed prec q) := by
  refine QA_of_not_mem patTrkpt_head ?_
  intro h
  exact (FmtChar_ne (fmtFixed_FmtChar h)).1 rfl

theorem QA_timeFmt (t : ℤ) : QA patTrkpt (timeFmt t) := by
  refine QA_of_not_mem patTrkpt_head ?_
  intro h
  exact (FmtChar_ne (timeFmt_FmtChar h)).1 rfl

theorem QA_of_clean {s : List Char} (h : '<' ∉ s) : QA patTrkpt s :=
  QA_of_not_mem patTrkpt_head h

theorem QA_eleSection (e : Option ℚ) : QA patTrkpt (eleSection e) := by
  cases e with
  | none => exact QA_nil
  | some v =>
    unfold eleSection
    simp only [List.append_assoc]
    exact QA_append (qaCheck_sound (by decide))
      (QA_append (QA_fmtFixed 2 v) (qaCheck_sound (by decide)))

theorem QA_timeSection (tm : Option ℤ) : QA patTrkpt (timeSection tm) := by
  cases tm with
  | none => exact QA_nil
  | some v =>
    unfold timeSection
    simp only [List.append_assoc]
    exact QA_append (qaCheck_sound (by decide))
      (QA_append (QA_timeFmt v) (qaCheck_sound (by decide)))

theorem QA_nameSection {name : String} (h : '<' ∉ name.data) :
    QA patTrkpt (nameSection name) := by
  unfold nameSection
  by_cases hn : name = ""
  · rw [if_pos hn]
    exact QA_nil
  · rw [if_neg hn]
    simp only [List.append_assoc]
    exact QA_append (qaCheck_sound (by decide))
      (QA_append (QA_of_clean h) (qaCheck_sound (by decide)))

theorem QA_descSection {desc : Option String}
    (h : ∀ d, desc = some d → '<' ∉ d.data) :
    QA patTrkpt (descSection desc) := by
  cases desc with
  | none => exact QA_nil
  | some d =>
    unfold descSection
    dsimp only
    by_cases hd : d = ""
    · rw [if_pos hd]
      exact QA_nil
    · rw [if_neg hd]
      simp only [List.append_assoc]
      exact QA_append (qaCheck_sound (by decide))
        (QA_append (QA_of_clean (h d rfl)) (qaCheck_sound (by decide)))

/-- The tail of a `<trkpt>` element after its leading `<`. -/
def trkptRest (p : GpxPoint) : List Char :=
  "trkpt lat=\"".data ++ fmtFixed 6 p.lat ++ "\" lon=\"".data ++
    fmtFixed 6 p.lon ++ "\">".data ++ eleSection p.ele ++
    timeSection p.time ++ "</trkpt>".data

theorem trkptChars_cons (p : GpxPoint) :
    trkptChars p = '<' :: trkptRest p := by
  unfold trkptChars trkptRest
  rw [show ("<trkpt lat=\"".data : List Char) =
    '<' :: "trkpt lat=\"".data from by decide]
  simp [List.cons_append]

theorem QA_trkptRest (p : GpxPoint) : QA patTrkpt (trkptRest p) := by
  unfold trkptRest
  simp only [List.append_assoc]
  exact QA_append (qaCheck_sound (by decide))
    (QA_append (QA_fmtFixed 6 p.lat)
      (QA_append (qaCheck_sound (by decide))
        (QA_append (QA_fmtFixed 6 p.lon)
          (QA_append (qaCheck_sound (by decide))
            (QA_append (QA_eleSection p.ele)
              (QA_append (QA_timeSection p.time)
                (qaCheck_sound (by decide))))))))

theorem occSuffixes_cons (pat : List Char) (c : Char) (s : List Char) :
    occSuffixes pat (c :: s) =
      (if pat.isPrefixOf (c :: s) then [c :: s] else []) ++
        occSuffixes pat s := rfl

/-- Each `<trkpt>` element contributes exactly one occurrence, at its own
start. -/
theorem occ_block (p : GpxPoint) (b : List Char) :
    occSuffixes patTrkpt (trkptChars p ++ b) =
      (trkptChars p ++ b) :: occSuffixes patTrkpt b := by
  rw [trkptChars_cons, List.cons_append, occSuffixes_cons]
  have hpre : patTrkpt.isPrefixOf ('<' :: (trkptRest p ++ b)) = true := by
    rw [List.isPrefixOf_iff_prefix]
    have h1 : patTrkpt <+: '<' :: trkptRest p := by
      rw [← trkptChars_cons]
      unfold trkptChars
      simp only [List.append_assoc]
      exact (show patTrkpt <+: "<trkpt lat=\"".data from by decide).trans
        (List.prefix_append _ _)
    rw [← List.cons_append]
    exact h1.trans (List.prefix_append _ _)
  rw [hpre]
  rw [if_pos rfl]
  rw [List.singleton_append]
  rw [occSuffixes_append_QA (QA_trkptRest p) b]

theorem takeWhile_append_all {p : Char → Bool} {x : List Char}
    (hx : ∀ c ∈ x, p c = true) (y : List Char) :
    (x ++ y).takeWhile p = x ++ y.takeWhile p := by
  induction x with
  | nil => rfl
  | cons c x2 ih =>
    rw [List.cons_append, List.takeWhile_cons, if_pos (hx c (List.mem_cons_self c x2)),
      ih (fun c2 hc2 => hx c2 (List.mem_cons_of_mem c hc2)), List.cons_append]

theorem mem_lit_ne_gt {s : List Char} (hs : s.all (· != '>') = true)
    {c : Char} (hc : c ∈ s) : (c != '>') = true := by
  rw [List.all_eq_true] at hs
  exact hs c hc

theorem trkptOpen_all {p : GpxPoint} :
    ∀ c ∈ trkptOpen p, (c != '>') = true := by
  intro c hc
  unfold trkptOpen at hc
  simp only [List.append_assoc] at hc
  rcases List.mem_append.1 hc with h | h
  · exact mem_lit_ne_gt (by decide) h
  rcases List.mem_append.1 h with h | h
  · rw [bne_iff_ne]
    exact (FmtChar_ne (fmtFixed_FmtChar h)).2
  rcases List.mem_append.1 h with h | h
  · exact mem_lit_ne_gt (by decide) h
  rcases List.mem_append.1 h with h | h
  · rw [bne_iff_ne]
    exact (FmtChar_ne (fmtFixed_FmtChar h)).2
  · exact mem_lit_ne_gt (by decide) h

/-- Decomposition of a `<trkpt>` element at the `>` that closes its opening
tag. -/
theorem trkptChars_split (p : GpxPoint) (b : List Char) :
    trkptChars p ++ b = trkptOpen p ++ '>' ::
      (eleSection p.ele ++ timeSection p.time ++ "</trkpt>".data ++ b) := by
  unfold trkptChars trkptOpen
  rw [show ("\">".data : List Char) = [Char.ofNat 34, '>'] from by decide]
  simp [List.append_assoc]

theorem take_block (p : GpxPoint) (b : List Char) :
    (trkptChars p ++ b).takeWhile (· != '>') = trkptOpen p := by
  rw [trkptChars_split p b]
  rw [takeWhile_append_all trkptOpen_all]
  rw [List.takeWhile_cons]
  rw [show (('>' : Char) != '>') = false from by decide]
  simp

/-- All occurrences of `<trkpt` in the generated document lie in the point
blocks: the head of the document (declaration, gpx open tag, verbatim name
and description, trk/trkseg tags) contributes none, for a track whose name
and description avoid the `<` character. -/
theorem occ_generateGPX (t : GPXTrack) (hname : '<' ∉ t.name.data)
    (hdesc : ∀ d, t.description = some d → '<' ∉ d.data) :
    occSuffixes patTrkpt (generateGPX t) =
      occSuffixes patTrkpt
        ((t.points.map trkptChars).flatten ++ "</trkseg></trk></gpx>".data) := by
  unfold generateGPX
  simp only [List.append_assoc]
  rw [occSuffixes_append_QA (qaCheck_sound (by decide))]
  rw [occSuffixes_append_QA (QA_nameSection hname)]
  rw [occSuffixes_append_QA (QA_descSection hdesc)]
  rw [occSuffixes_append_QA (qaCheck_sound (by decide))]
  rw [occSuffixes_append_QA (QA_nameSection hname)]
  rw [occSuffixes_append_QA (qaCheck_sound (by decide))]

/-- The occurrence suffixes of the point part, truncated at the closing
`>` of each opening tag, are exactly the per-point opening tags, in stored
order. -/
theorem occ_points (ps : List GpxPoint) :
    (occSuffixes patTrkpt
        ((ps.map trkptChars).flatten ++ "</trkseg></trk></gpx>".data)).map
      (List.takeWhile (· != '>')) = ps.map trkptOpen := by
  induction ps with
  | nil =>
    rw [List.map_nil, List.flatten_nil, List.nil_append]
    rw [show occSuffixes patTrkpt ("</trkseg></trk></gpx>".data) = []
      from by decide]
    rfl
  | cons p rest ih =>
    rw [List.map_cons, List.flatten_cons, List.append_assoc]
    rw [occ_block]
    rw [List.map_cons, List.map_cons]
    congr 1
    exact take_block p _

/-- The bad stored track of the C10 counterpart: its name holds raw XML
metacharacters; it has no points. -/
def c10BadTrack : GPXTrack :=
  ⟨"bad.gpx", "Trail <3 & Co", none, 0, 0, 0, 0, 0, none, none,
    0, 0, 0, 0, []⟩

/-- The XML-special characters. -/
def xmlSpecials : List Char := ['<', '>', '&', Char.ofNat 34, Char.ofNat 39]

/-- C10: `generateGPX` interpolates the stored name verbatim — the raw name
appears as a substring of the output and the resulting document is not
well-formed XML for a name containing `<` and `&`; and for every track
whose name and description contain no XML-special characters, the output
contains exactly one `<trkpt` occurrence per stored point, in stored
order, each opening with that point's formatted coordinates. -/
theorem gpx_download_generator :
    (subOccurs c10BadTrack.name.data (generateGPX c10BadTrack) = true ∧
      xmlWellFormed (generateGPX c10BadTrack) = false) ∧
    (∀ t : GPXTrack,
      (∀ c ∈ t.name.data, c ∉ xmlSpecials) →
      (∀ d, t.description = some d → ∀ c ∈ d.data, c ∉ xmlSpecials) →
      (occSuffixes patTrkpt (generateGPX t)).map
          (List.takeWhile (· != '>')) = t.points.map trkptOpen ∧
        (occSuffixes patTrkpt (generateGPX t)).length = t.points.length) := by
  constructor
  · exact ⟨by decide, by decide⟩
  · intro t hname hdesc
    have hn : '<' ∉ t.name.data := by
      intro h
      exact hname '<' h (by decide)
    have hd : ∀ d, t.description = some d → '<' ∉ d.data := by
      intro d hdd h
      exact hdesc d hdd '<' h (by decide)
    have hmain := occ_generateGPX t hn hd
    have htake := occ_points t.points
    rw [hmain]
    refine ⟨htake, ?_⟩
    have := congrArg List.length htake
    rw [List.length_map, List.length_map] at this
    exact this

/-- A clean one-point stored track for the C10 witness. -/
def c10CleanTrack : GPXTrack :=
  ⟨"ok.gpx", "Nice Trail", some "a fine walk", 0, 0, 0, 0, 0, none, none,
    0, 0, 0, 0, [⟨1, 2, none, none⟩]⟩

/-- Witness for C10: the cleanliness hypotheses discharged on a concrete
track with one point. -/
theorem gpx_download_generator_witness :
    (occSuffixes patTrkpt (generateGPX c10CleanTrack)).map
        (List.takeWhile (· != '>')) = c10CleanTrack.points.map trkptOpen ∧
      (occSuffixes patTrkpt (generateGPX c10CleanTrack)).length =
        c10CleanTrack.points.length :=
  gpx_download_generator.2 c10CleanTrack (by decide)
    (by
      intro d hd
      have : d = "a fine walk" := by
        injection hd with h
        exact h.symm
      rw [this]
      decide)

/-- Sanity check that the well-formedness scanner is not vacuous: it accepts
the document generated for a clean zero-point track. -/
theorem xmlWellFormed_accepts_clean_doc :
    xmlWellFormed (generateGPX
      ⟨"a.gpx", "Nice Trail", some "d", 0, 0, 0, 0, 0, none, none,
        0, 0, 0, 0, []⟩) = true := by decide

end MyTracks
